import Mathlib

/-
Verification of the HogTyped Python code generator
(packages/python/hogtyped/codegen.py) against its specification.

The development shallowly embeds the generator core:
  - a `Json` tree models parsed JSON values (Python dicts are ordered
    association lists, matching Python 3.7+ insertion-ordered dicts);
  - `resolve_refs` models `resolve_refs(schema, root_schema, file_path)`,
    with a fuel parameter standing in for Python's unbounded recursion and
    an explicit filesystem `fs : List (String × Json)` mapping file paths
    to parsed file contents (the code's `open` + `json.load`);
  - `load_schemas` models `load_schemas(pattern)`, taking the glob-matched
    files as an explicit list of (path, parsed content) pairs;
  - `validate` and `capture` model the `_validate` and `capture` methods of
    the generated wrapper class (the string template in
    `generate_python_code`), with the wrapped SDK modelled as the list of
    `posthog.capture` calls made, in order.

Python exceptions that abort resolution (FileNotFoundError from `open`,
AttributeError from `.get` on a non-dict) are modelled as `RErr` values;
`RErr.fuel` marks exhaustion of the recursion budget.
-/

namespace HogTyped

/-- A parsed JSON value. Python dicts are modelled as insertion-ordered
association lists, matching dict semantics in Python 3.7+. -/
inductive Json where
  | null : Json
  | bool (b : Bool) : Json
  | num (n : Int) : Json
  | str (s : String) : Json
  | arr (xs : List Json) : Json
  | obj (kvs : List (String × Json)) : Json

mutual

/-- Boolean structural equality on `Json` (Python `==` on parsed JSON). -/
def jeqb : Json → Json → Bool
  | .null, .null => true
  | .bool a, .bool b => a == b
  | .num a, .num b => decide (a = b)
  | .str a, .str b => decide (a = b)
  | .arr xs, .arr ys => jeqbArr xs ys
  | .obj xs, .obj ys => jeqbObj xs ys
  | _, _ => false

/-- Boolean equality on JSON arrays. -/
def jeqbArr : List Json → List Json → Bool
  | [], [] => true
  | x :: xs, y :: ys => jeqb x y && jeqbArr xs ys
  | _, _ => false

/-- Boolean equality on JSON object entry lists. -/
def jeqbObj : List (String × Json) → List (String × Json) → Bool
  | [], [] => true
  | kv :: xs, kv2 :: ys => (decide (kv.1 = kv2.1)) && jeqb kv.2 kv2.2 && jeqbObj xs ys
  | _, _ => false

end

mutual

theorem jeqb_refl : ∀ a : Json, jeqb a a = true
  | .null => rfl
  | .bool b => by simp [jeqb]
  | .num n => by simp [jeqb]
  | .str s => by simp [jeqb]
  | .arr xs => by simp only [jeqb]; exact jeqbArr_refl xs
  | .obj kvs => by simp only [jeqb]; exact jeqbObj_refl kvs

theorem jeqbArr_refl : ∀ xs : List Json, jeqbArr xs xs = true
  | [] => rfl
  | x :: xs => by simp only [jeqbArr, Bool.and_eq_true]; exact ⟨jeqb_refl x, jeqbArr_refl xs⟩

theorem jeqbObj_refl : ∀ kvs : List (String × Json), jeqbObj kvs kvs = true
  | [] => rfl
  | kv :: kvs => by
    simp only [jeqbObj, Bool.and_eq_true, decide_eq_true_eq]
    exact ⟨⟨trivial, jeqb_refl kv.2⟩, jeqbObj_refl kvs⟩

end

mutual

theorem jeqb_sound : ∀ a b : Json, jeqb a b = true → a = b
  | .null, .null, _ => rfl
  | .bool a, .bool b, h => by simp [jeqb] at h; simp [h]
  | .num a, .num b, h => by simp [jeqb] at h; simp [h]
  | .str a, .str b, h => by simp [jeqb] at h; simp [h]
  | .arr xs, .arr ys, h => by
    simp only [jeqb] at h
    have := jeqbArr_sound xs ys h
    simp [this]
  | .obj xs, .obj ys, h => by
    simp only [jeqb] at h
    have := jeqbObj_sound xs ys h
    simp [this]
  | .null, .bool _, h | .null, .num _, h | .null, .str _, h | .null, .arr _, h | .null, .obj _, h => by simp [jeqb] at h
  | .bool _, .null, h | .bool _, .num _, h | .bool _, .str _, h | .bool _, .arr _, h | .bool _, .obj _, h => by simp [jeqb] at h
  | .num _, .null, h | .num _, .bool _, h | .num _, .str _, h | .num _, .arr _, h | .num _, .obj _, h => by simp [jeqb] at h
  | .str _, .null, h | .str _, .bool _, h | .str _, .num _, h | .str _, .arr _, h | .str _, .obj _, h => by simp [jeqb] at h
  | .arr _, .null, h | .arr _, .bool _, h | .arr _, .num _, h | .arr _, .str _, h | .arr _, .obj _, h => by simp [jeqb] at h
  | .obj _, .null, h | .obj _, .bool _, h | .obj _, .num _, h | .obj _, .str _, h | .obj _, .arr _, h => by simp [jeqb] at h

theorem jeqbArr_sound : ∀ xs ys : List Json, jeqbArr xs ys = true → xs = ys
  | [], [], _ => rfl
  | x :: xs, y :: ys, h => by
    simp only [jeqbArr, Bool.and_eq_true] at h
    have h1 := jeqb_sound x y h.1
    have h2 := jeqbArr_sound xs ys h.2
    simp [h1, h2]
  | [], _ :: _, h => by simp [jeqbArr] at h
  | _ :: _, [], h => by simp [jeqbArr] at h

theorem jeqbObj_sound : ∀ xs ys : List (String × Json), jeqbObj xs ys = true → xs = ys
  | [], [], _ => rfl
  | kv :: xs, kv2 :: ys, h => by
    simp only [jeqbObj, Bool.and_eq_true] at h
    have h1 := jeqb_sound kv.2 kv2.2 h.1.2
    have h2 := jeqbObj_sound xs ys h.2
    have h3 : kv.1 = kv2.1 := by have := h.1.1; simpa using this
    calc kv :: xs = (kv.1, kv.2) :: xs := by simp
    _ = (kv2.1, kv2.2) :: ys := by rw [h1, h2, h3]
    _ = kv2 :: ys := by simp
  | [], _ :: _, h => by simp [jeqbObj] at h
  | _ :: _, [], h => by simp [jeqbObj] at h

end

instance : DecidableEq Json := fun a b =>
  decidable_of_iff (jeqb a b = true) ⟨jeqb_sound a b, fun h => h ▸ jeqb_refl a⟩

/-- Python `d.get(k)` / `k in d` on an ordered dict: first entry with the key
(parsed JSON dicts have unique keys, so first = only). -/
def lookupKV (k : String) : List (String × Json) → Option Json
  | [] => none
  | kv :: rest => if kv.1 = k then some kv.2 else lookupKV k rest

/-- Python truthiness of a parsed JSON value (`if not schema`). -/
def isFalsy : Json → Bool
  | .null => true
  | .bool b => !b
  | .num n => decide (n = 0)
  | .str s => decide (s = "")
  | .arr xs => xs.isEmpty
  | .obj kvs => kvs.isEmpty

/-- Python iteration over a JSON value: lists yield elements, dicts yield
their keys, strings yield one-character strings. Iterating a number, bool
or None raises TypeError in Python; that case is never exercised here and
is modelled as the empty iteration. -/
def pyIter : Json → List Json
  | .arr xs => xs
  | .obj kvs => kvs.map (fun kv => Json.str kv.1)
  | .str s => s.toList.map (fun c => Json.str (String.singleton c))
  | _ => []

/-- Python `d.get(k)` where `d` is a JSON value: `None` for a non-dict
(the code only calls this on dicts). -/
def jGet (j : Json) (k : String) : Option Json :=
  match j with
  | .obj kvs => lookupKV k kvs
  | _ => none

/-- Python `d.get(k, default)`. -/
def jGetD (j : Json) (k : String) (d : Json) : Json :=
  (jGet j k).getD d

/-- Lexicographic order on char lists by Unicode code point, the order
Python uses to compare strings. -/
def clLe : List Char → List Char → Bool
  | [], _ => true
  | _ :: _, [] => false
  | x :: xs, y :: ys =>
    if x.val.toNat < y.val.toNat then true
    else if y.val.toNat < x.val.toNat then false
    else clLe xs ys

/-- Python string comparison `a <= b` (code-point lexicographic). -/
def strLeB (a b : String) : Bool := clLe a.toList b.toList

/-- Tests whether the second char list is a leading segment of the first
(kernel-computable core of Python `str.startswith`). -/
def listStartsWith : List Char → List Char → Bool
  | _, [] => true
  | [], _ :: _ => false
  | c :: cs, d :: ds => decide (c = d) && listStartsWith cs ds

/-- Python `s.startswith(p)`. -/
def strStartsWith (s p : String) : Bool := listStartsWith s.toList p.toList

/-- Python `s[n:]` on strings (drop the first `n` characters). -/
def strDrop (s : String) (n : Nat) : String := String.mk (s.toList.drop n)

/-- Python `str.split(sep)` for a one-character separator, on char lists:
splits at every occurrence, and the empty string yields one empty part. -/
def splitOnChar (sep : Char) : List Char → List (List Char)
  | [] => [[]]
  | c :: rest =>
    let r := splitOnChar sep rest
    if c = sep then [] :: r
    else match r with
      | [] => [[c]]
      | h :: t => (c :: h) :: t

/-- Python `s.split(sep)` for a one-character separator. -/
def strSplitOnC (sep : Char) (s : String) : List String :=
  (splitOnChar sep s.toList).map String.mk

/-- Python `s.replace(old, new)` for one-character arguments. -/
def strReplaceC (s : String) (old new : Char) : String :=
  String.mk (s.toList.map (fun c => if c = old then new else c))

theorem clLe_total : ∀ a b : List Char, clLe a b = true ∨ clLe b a = true
  | [], _ => Or.inl rfl
  | _ :: _, [] => Or.inr rfl
  | x :: xs, y :: ys => by
    simp only [clLe]
    rcases Nat.lt_trichotomy x.val.toNat y.val.toNat with h | h | h
    · left; simp [h]
    · have hji : ¬ x.val.toNat < y.val.toNat := by omega
      have hij : ¬ y.val.toNat < x.val.toNat := by omega
      rcases clLe_total xs ys with ih | ih
      · left; simp [hji, hij, ih]
      · right; simp [hji, hij, ih]
    · right; simp [h]

theorem clLe_trans : ∀ a b c : List Char, clLe a b = true → clLe b c = true → clLe a c = true
  | [], _, _, _, _ => rfl
  | _ :: _, [], _, h, _ => by simp [clLe] at h
  | _ :: _, _ :: _, [], _, h => by simp [clLe] at h
  | x :: xs, y :: ys, z :: zs, h1, h2 => by
    simp only [clLe] at h1 h2 ⊢
    rcases Nat.lt_trichotomy x.val.toNat y.val.toNat with hxy | hxy | hxy
    · rcases Nat.lt_trichotomy y.val.toNat z.val.toNat with hyz | hyz | hyz
      · have hlt : x.val.toNat < z.val.toNat := by omega
        simp [hlt]
      · have hlt : x.val.toNat < z.val.toNat := by omega
        simp [hlt]
      · have ha : ¬ y.val.toNat < z.val.toNat := by omega
        simp [ha, hyz] at h2
    · rcases Nat.lt_trichotomy y.val.toNat z.val.toNat with hyz | hyz | hyz
      · have hlt : x.val.toNat < z.val.toNat := by omega
        simp [hlt]
      · have ha : ¬ x.val.toNat < y.val.toNat := by omega
        have hb : ¬ y.val.toNat < x.val.toNat := by omega
        have hc : ¬ y.val.toNat < z.val.toNat := by omega
        have hd2 : ¬ z.val.toNat < y.val.toNat := by omega
        have he : ¬ x.val.toNat < z.val.toNat := by omega
        have hf : ¬ z.val.toNat < x.val.toNat := by omega
        simp only [ha, hb, if_false, if_neg] at h1
        simp only [hc, hd2, if_false, if_neg] at h2
        simp only [he, hf, if_false, if_neg]
        exact clLe_trans xs ys zs h1 h2
      · have ha : ¬ y.val.toNat < z.val.toNat := by omega
        simp [ha, hyz] at h2
    · have ha : ¬ x.val.toNat < y.val.toNat := by omega
      simp [ha, hxy] at h1

theorem clLe_antisymm : ∀ a b : List Char, clLe a b = true → clLe b a = true → a = b
  | [], [], _, _ => rfl
  | [], _ :: _, _, h => by simp [clLe] at h
  | _ :: _, [], h, _ => by simp [clLe] at h
  | x :: xs, y :: ys, h1, h2 => by
    simp only [clLe] at h1 h2
    by_cases hxy : x.val.toNat < y.val.toNat <;> by_cases hyx : y.val.toNat < x.val.toNat <;>
      simp_all
    · omega
    · have hx : x = y := by
        have hnat : x.val.toNat = y.val.toNat := by omega
        exact Char.eq_of_val_eq (UInt32.toNat.inj hnat)
      exact ⟨hx, clLe_antisymm xs ys h1 h2⟩

theorem strLeB_total (a b : String) : strLeB a b = true ∨ strLeB b a = true :=
  clLe_total a.toList b.toList

theorem strLeB_trans (a b c : String) (h1 : strLeB a b = true) (h2 : strLeB b c = true) :
    strLeB a c = true :=
  clLe_trans a.toList b.toList c.toList h1 h2

theorem strLeB_antisymm (a b : String) (h1 : strLeB a b = true) (h2 : strLeB b a = true) :
    a = b := by
  have hd : a.data = b.data := clLe_antisymm a.toList b.toList h1 h2
  cases a; cases b; simp_all

/-- Python `Path(p).parent` rendered as a string ("." when the path has no
directory component, as pathlib does). -/
def parentDir (p : String) : String :=
  match (splitOnChar '/' p.toList).dropLast with
  | [] => "."
  | parts => String.mk (List.intercalate ['/'] parts)

/-- Python `Path(dir) / rel`: pathlib collapses a leading "./" in `rel` and
joins with "/" (a "." directory disappears). -/
def joinPath (dir rel : String) : String :=
  let r := if strStartsWith rel "./" then strDrop rel 2 else rel
  if dir = "." then r else dir ++ "/" ++ r

/-- Errors that abort a resolution run, modelling uncaught Python
exceptions, plus `fuel`, which marks exhaustion of the recursion budget
used to embed Python's unbounded recursion. -/
inductive RErr where
  | fuel : RErr
  | fileNotFound : RErr
  | attrError : RErr
deriving DecidableEq

/-- The internal-reference pointer walk in `resolve_refs` (codegen.py lines
85-90): `resolved = resolved.get(part)` with `if resolved is None: break`.
A missing key or a stored JSON null both make `dict.get` return Python
`None`, breaking the loop; calling `.get` on a non-dict raises
AttributeError. -/
def walkInternal : Json → List String → Except RErr Json
  | cur, [] => .ok cur
  | .obj kvs, p :: ps =>
    match lookupKV p kvs with
    | none => .ok .null
    | some .null => .ok .null
    | some v => walkInternal v ps
  | _, _ :: _ => .error .attrError

/-- The external-fragment pointer walk in `resolve_refs` (codegen.py lines
103-105): `resolved = resolved.get(part)` with no None check, so a missing
key yields None and a further `.get` on it raises AttributeError. -/
def walkExternal : Json → List String → Except RErr Json
  | cur, [] => .ok cur
  | .obj kvs, p :: ps =>
    match lookupKV p kvs with
    | some v => walkExternal v ps
    | none => match ps with
      | [] => .ok .null
      | _ :: _ => .error .attrError
  | _, _ :: _ => .error .attrError

/-- Entries of the `properties` value of a resolved sub-schema, as read by
the allOf merge: `resolved.get('properties', {})` (codegen.py line 118).
The generator only ever stores a JSON object (or nothing) under
`properties`; a non-object value there would make `dict.update` misbehave
in Python and is modelled as contributing no entries. -/
def propsEntriesOf (r : Json) : List (String × Json) :=
  match r with
  | .obj rkvs =>
    match lookupKV "properties" rkvs with
    | some (.obj pkvs) => pkvs
    | _ => []
  | _ => []

/-- Items of the `required` value of a resolved sub-schema, as read by the
allOf merge: `resolved.get('required', [])` (codegen.py line 119),
iterated by `list.extend`. -/
def reqItemsOf (r : Json) : List Json :=
  match r with
  | .obj rkvs => pyIter ((lookupKV "required" rkvs).getD (.arr []))
  | _ => []

/-- The `additionalProperties` value of a resolved sub-schema, if present
(codegen.py lines 121-122). -/
def addlOf (r : Json) : Option Json :=
  match r with
  | .obj rkvs => lookupKV "additionalProperties" rkvs
  | _ => none

/-- Python `d[k] = v` on an ordered dict: an existing key keeps its slot
and gets the new value, a new key is appended. -/
def setKey (kvs : List (String × Json)) (k : String) (v : Json) : List (String × Json) :=
  if (lookupKV k kvs).isSome then kvs.map (fun e => if e.1 = k then (k, v) else e)
  else kvs ++ [(k, v)]

/-- Python `base.update(upd)` on ordered dicts. -/
def updateEntries (base upd : List (String × Json)) : List (String × Json) :=
  upd.foldl (fun acc kv => setKey acc kv.1 kv.2) base

/-- One turn of the allOf merge loop (codegen.py lines 114-122), folding a
resolved sub-schema into the accumulated (properties, required,
additionalProperties); non-dict resolutions are skipped by the
`isinstance(resolved, dict)` guard. -/
def mergeStep (acc : List (String × Json) × List Json × Option Json) (r : Json) :
    List (String × Json) × List Json × Option Json :=
  match r with
  | .obj _ =>
    (updateEntries acc.1 (propsEntriesOf r),
     acc.2.1 ++ reqItemsOf r,
     match addlOf r with
     | some v => some v
     | none => acc.2.2)
  | _ => acc

/-- The `properties` accumulated over the allOf merge loop. -/
def mergedProps (rs : List Json) : List (String × Json) :=
  (rs.foldl mergeStep ([], [], none)).1

/-- The `required` names accumulated (with repetitions) over the allOf
merge loop, before `list(set(...))`. -/
def mergedReq (rs : List Json) : List Json :=
  (rs.foldl mergeStep ([], [], none)).2.1

/-- The `additionalProperties` value left by the allOf merge loop, if any
sub-schema defined one (the last definition wins). -/
def mergedAddl (rs : List Json) : Option Json :=
  (rs.foldl mergeStep ([], [], none)).2.2

/-- The merged fragment built from the resolved allOf members (codegen.py
lines 112-125). Python deduplicates `required` via `list(set(...))`, whose
order is unspecified; the model uses `List.dedup` and all theorems about
`required` are order-insensitive. The dict key order is type, properties,
required, then additionalProperties (appended by its first assignment,
updated in place afterwards). -/
def mergeAllOf (rs : List Json) : Json :=
  .obj ([("type", .str "object"),
         ("properties", .obj (mergedProps rs)),
         ("required", .arr (mergedReq rs).dedup)] ++
        (match mergedAddl rs with
         | some v => [("additionalProperties", v)]
         | none => []))

/-- Effectful map over a list in the `Except` monad, short-circuiting on
the first error (Python: an uncaught exception aborts the loop). -/
def mapME (f : α → Except ε β) : List α → Except ε (List β)
  | [] => .ok []
  | x :: xs =>
    match f x with
    | .error e => .error e
    | .ok y =>
      match mapME f xs with
      | .error e => .error e
      | .ok ys => .ok (y :: ys)

/-- One unfolding of `resolve_refs(schema, root_schema, file_path)`
(codegen.py lines 74-134), with `rec` standing for the recursive calls.
Follows the source branch for branch: falsy schemas are returned
unchanged; a dict with a string `$ref` dispatches on the `#/` and `./`
schemes and otherwise falls through to `return schema` unchanged; a dict
with `allOf` (and no `$ref`) resolves each member and merges; any other
dict is resolved value-wise; lists element-wise; scalars pass through. -/
def resolveBody (rec : Json → Json → String → List (String × Json) → Except RErr Json)
    (schema root : Json) (path : String) (fs : List (String × Json)) : Except RErr Json :=
  if isFalsy schema then .ok schema
  else match schema with
  | .obj kvs =>
    match lookupKV "$ref" kvs with
    | some (.str ref) =>
      if strStartsWith ref "#/" then
        match walkInternal root (strSplitOnC '/' (strDrop ref 2)) with
        | .error e => .error e
        | .ok target => rec target root path fs
      else if strStartsWith ref "./" then
        match strSplitOnC '#' ref with
        | [] => .error .attrError
        | refFileRel :: rest =>
          let refFile := joinPath (parentDir path) refFileRel
          match lookupKV refFile fs with
          | none => .error .fileNotFound
          | some content =>
            match rest with
            | frag :: _ =>
              if frag = "" then .ok content
              else
                match walkExternal content (strSplitOnC '/' (strDrop frag 1)) with
                | .error e => .error e
                | .ok target => rec target content refFile fs
            | [] => .ok content
      else .ok schema
    | some _ => .error .attrError
    | none =>
      match lookupKV "allOf" kvs with
      | some av =>
        match mapME (fun s => rec s root path fs) (pyIter av) with
        | .error e => .error e
        | .ok rs => .ok (mergeAllOf rs)
      | none =>
        match mapME (fun kv =>
            match rec kv.2 root path fs with
            | .error e => .error e
            | .ok v => .ok (kv.1, v)) kvs with
        | .error e => .error e
        | .ok kvs2 => .ok (.obj kvs2)
  | .arr xs =>
    match mapME (fun x => rec x root path fs) xs with
    | .error e => .error e
    | .ok ys => .ok (.arr ys)
  | _ => .ok schema

/-- Fuel-indexed embedding of `resolve_refs`: every Python-level recursive
call costs one unit of fuel, and `RErr.fuel` marks a run that needs a
deeper recursion than the budget allows (Python recurses unboundedly). -/
def resolve_refs : Nat → Json → Json → String → List (String × Json) → Except RErr Json
  | 0, _, _, _, _ => .error .fuel
  | n + 1, schema, root, path, fs => resolveBody (resolve_refs n) schema root path fs

mutual

/-- No object reachable from this fragment carries a `$ref` key or an
`allOf` key: the fragment is fully resolved in the sense of the data-model
invariant. -/
def noRefAllOf : Json → Bool
  | .obj kvs => (lookupKV "$ref" kvs).isNone && (lookupKV "allOf" kvs).isNone && noRefVals kvs
  | .arr xs => noRefItems xs
  | _ => true

/-- All values of an object entry list satisfy `noRefAllOf`. -/
def noRefVals : List (String × Json) → Bool
  | [] => true
  | kv :: rest => noRefAllOf kv.2 && noRefVals rest

/-- All items of an array satisfy `noRefAllOf`. -/
def noRefItems : List Json → Bool
  | [] => true
  | x :: rest => noRefAllOf x && noRefItems rest

end

/-- The `$ref` entry of an object, if present, is a string that is either
an internal `#/...` pointer or an external `./file#/...` reference with a
nonempty fragment part. -/
def refSchemeOk (kvs : List (String × Json)) : Bool :=
  match lookupKV "$ref" kvs with
  | none => true
  | some (.str r) =>
    strStartsWith r "#/" ||
    (strStartsWith r "./" &&
      (match strSplitOnC '#' r with
       | _ :: frag :: _ => decide (frag ≠ "")
       | _ => false))
  | some _ => false

mutual

/-- Every object reachable from this fragment has a well-formed reference:
its `$ref`, when present, uses a recognized scheme (`#/...` internal, or
`./file#/...` external with a fragment pointer). -/
def goodRefs : Json → Bool
  | .obj kvs => refSchemeOk kvs && goodVals kvs
  | .arr xs => goodItems xs
  | _ => true

/-- All values of an object entry list satisfy `goodRefs`. -/
def goodVals : List (String × Json) → Bool
  | [] => true
  | kv :: rest => goodRefs kv.2 && goodVals rest

/-- All items of an array satisfy `goodRefs`. -/
def goodItems : List Json → Bool
  | [] => true
  | x :: rest => goodRefs x && goodItems rest

end

/-- Python `str.capitalize()`: first character uppercased, the rest
lowercased. -/
def pyCapitalize (s : String) : String :=
  match s.toList with
  | [] => ""
  | c :: rest => String.mk (c.toUpper :: rest.map Char.toLower)

/-- The `event_name_to_type` function (codegen.py lines 137-140). -/
def event_name_to_type (event_name : String) : String :=
  String.join ((strSplitOnC '_' (strReplaceC event_name '-' '_')).map pyCapitalize) ++ "Properties"

/-- One entry of the list built by `load_schemas` (codegen.py lines
62-68). `properties` and `required` mirror `resolved.get('properties', {})`
and `resolved.get('required', [])`. -/
structure ResolvedEvent where
  event_name : String
  type_name : String
  schema : Json
  properties : Json
  required : Json

/-- Builds the `load_schemas` entry for one event. Python calls
`resolved.get(...)`, which raises AttributeError when the resolved schema
is not a dict (including `None` from a vanished reference). -/
def mkResolvedEvent (name : String) (resolved : Json) : Except RErr ResolvedEvent :=
  match resolved with
  | .obj _ => .ok
    { event_name := name
      type_name := event_name_to_type name
      schema := resolved
      properties := jGetD resolved "properties" (.obj [])
      required := jGetD resolved "required" (.arr []) }
  | _ => .error .attrError

/-- The `events` mapping of a schema document (codegen.py lines 59-60):
absent means no events. A non-dict document or a non-dict `events` value
would make Python's `in` test or `.items()` call misbehave; the generator
consumes JSON Schema documents where both are objects, and other shapes
are modelled as an empty events map. -/
def eventsOf (content : Json) : List (String × Json) :=
  match content with
  | .obj kvs =>
    match lookupKV "events" kvs with
    | some (.obj evs) => evs
    | some _ => []
    | none => []
  | _ => []

/-- The `load_schemas` function (codegen.py lines 50-71). The glob match
is modelled as an input list of (path, parsed content) pairs in arbitrary
enumeration order; the code sorts the matched paths
(`sorted(glob_module.glob(pattern, ...))`), loads each document, resolves
every event against its own document and path, and finally sorts the
events by event name in reverse (`sorted(schemas, key=..., reverse=True)`,
a stable sort modelled by a stable insertion sort). -/
def load_schemas (fuel : Nat) (files : List (String × Json)) (fs : List (String × Json)) :
    Except RErr (List ResolvedEvent) :=
  let sortedFiles := List.insertionSort (fun a b : String × Json => strLeB a.1 b.1 = true) files
  match mapME (fun pc => mapME (fun ev =>
      match resolve_refs fuel ev.2 pc.2 pc.1 fs with
      | .error e => .error e
      | .ok resolved => mkResolvedEvent ev.1 resolved) (eventsOf pc.2)) sortedFiles with
  | .error e => .error e
  | .ok nested =>
    .ok (List.insertionSort (fun a b : ResolvedEvent => strLeB b.event_name a.event_name = true)
          nested.flatten)

/-- The `ValidationMode` enum of the generated wrapper. -/
inductive ValidationMode where
  | strict
  | warning
  | disabled
deriving DecidableEq

/-- A validation error produced by the generated `_validate` method.
Python renders these as f-strings ("Missing required field: ...",
"Invalid enum value for ...: ..."); the model keeps them structural, with
the same multiplicity and order. -/
inductive VErr where
  | missingField (field : Json)
  | invalidEnum (field : String) (value : Json)

/-- The required-field check of `_validate`: `if field not in properties`.
Field names in generated schemas are strings; a non-string hashable field
name is never a key of a string-keyed dict, so it always counts as
missing (an unhashable one raises TypeError in Python, which the
generator never produces; it is modelled as a failed check). -/
def missingCheck (f : Json) (properties : List (String × Json)) : Option VErr :=
  match f with
  | .str s => if (lookupKV s properties).isSome then none else some (.missingField f)
  | _ => some (.missingField f)

/-- The required-field items the generated `_validate` iterates:
`schema.get('required', [])` (schemas in the embedded table are dicts and
store a JSON array there when present). -/
def requiredItems (schema : Json) : List Json :=
  pyIter (jGetD schema "required" (.arr []))

/-- The enum check of `_validate`: for a property present in the schema's
`properties` whose schema has an `enum` key, the value must be a member
of the enum list (Python `in`, i.e. `==` against each item). Non-dict
`properties` or property-schema values would hit Python's substring or
element `in` semantics; generated schemas store objects there and other
shapes are modelled as passing. -/
def enumCheck (schema : Json) (fv : String × Json) : Option VErr :=
  match jGet schema "properties" with
  | some (.obj pkvs) =>
    match lookupKV fv.1 pkvs with
    | some (.obj pskvs) =>
      match lookupKV "enum" pskvs with
      | some ev => if (pyIter ev).any (fun e => jeqb fv.2 e) then none
                   else some (.invalidEnum fv.1 fv.2)
      | none => none
    | some _ => none
    | none => none
  | _ => none

/-- The error list collected by the generated `_validate`: the
missing-required-field errors (in `required` order) followed by the enum
errors (in `properties` dict order). -/
def validationErrors (schema : Json) (properties : List (String × Json)) : List VErr :=
  (requiredItems schema).filterMap (fun f => missingCheck f properties) ++
  properties.filterMap (fun fv => enumCheck schema fv)

/-- The generated `_validate` method (template in codegen.py lines
292-317): DISABLED mode skips validation; an unknown or falsy schema
skips validation; otherwise the collected error list is returned, as
Python `None` when empty (`return errors if errors else None`). -/
def validate (mode : ValidationMode) (schemas : List (String × Json)) (event_name : String)
    (properties : List (String × Json)) : Option (List VErr) :=
  if mode = .disabled then none
  else match lookupKV event_name schemas with
  | none => none
  | some schema =>
    if isFalsy schema then none
    else if (validationErrors schema properties).isEmpty then none
    else some (validationErrors schema properties)

/-- Properties payload of a forwarded SDK call: either the user-supplied
properties dict, or the `{event, errors, properties}` diagnostic payload
of a `$schema_validation_warning` event. -/
inductive CallProps where
  | dict (kvs : List (String × Json))
  | diag (event : String) (errors : List VErr) (properties : List (String × Json))

/-- One call forwarded to the wrapped SDK (`posthog.capture`). Extra
keyword arguments are passed through unchanged and are not modelled. -/
structure SdkCall where
  distinct_id : String
  event : String
  properties : CallProps

/-- The error raised by the generated `capture` in STRICT mode: Python's
`ValueError(f"Validation failed for event '{event}': {errors}")`,
modelled structurally as the event name plus the error list. -/
inductive CapErr where
  | valueError (event : String) (errors : List VErr)

/-- The generated `capture` method (template in codegen.py lines
335-376): `properties = properties or {}`, validate, STRICT raises before
anything is sent, WARNING sends a `$schema_validation_warning` diagnostic
first (the `warnings.warn` side effect is not an SDK call and is not
modelled), then the original event is always sent. The result is the list
of SDK calls made, in order. -/
def capture (mode : ValidationMode) (schemas : List (String × Json)) (distinct_id event : String)
    (properties : Option (List (String × Json))) : Except CapErr (List SdkCall) :=
  let props := properties.getD []
  let errors := (validate mode schemas event props).getD []
  if errors.isEmpty then .ok [⟨distinct_id, event, .dict props⟩]
  else if mode = .strict then .error (.valueError event errors)
  else if mode = .warning then
    .ok [⟨distinct_id, "$schema_validation_warning", .diag event errors props⟩,
         ⟨distinct_id, event, .dict props⟩]
  else .ok [⟨distinct_id, event, .dict props⟩]


theorem isFalsy_false_of_requiredItems_ne_nil (sch : Json) (h : requiredItems sch ≠ []) :
    isFalsy sch = false := by
  cases sch with
  | obj kvs =>
    cases kvs with
    | nil => simp [requiredItems, jGetD, jGet, lookupKV, pyIter] at h
    | cons kv rest => simp [isFalsy]
  | null => simp [requiredItems, jGetD, jGet, pyIter] at h
  | bool b => simp [requiredItems, jGetD, jGet, pyIter] at h
  | num n => simp [requiredItems, jGetD, jGet, pyIter] at h
  | str s => simp [requiredItems, jGetD, jGet, pyIter] at h
  | arr xs => simp [requiredItems, jGetD, jGet, pyIter] at h

theorem validate_some_isEmpty_false (mode : ValidationMode) (schemas : List (String × Json))
    (e : String) (props : List (String × Json)) (errs : List VErr)
    (h : validate mode schemas e props = some errs) : errs.isEmpty = false := by
  unfold validate at h
  split at h
  · exact absurd h (by simp)
  · split at h
    · exact absurd h (by simp)
    · split at h
      · exact absurd h (by simp)
      · split at h
        · exact absurd h (by simp)
        · rename_i hne
          cases h
          simpa using hne

theorem validate_pos (mode : ValidationMode) (schemas : List (String × Json)) (e : String)
    (props : List (String × Json)) (sch : Json)
    (hd : mode ≠ .disabled) (hs : lookupKV e schemas = some sch)
    (hfalsy : isFalsy sch = false) (hne : validationErrors sch props ≠ []) :
    validate mode schemas e props = some (validationErrors sch props) := by
  unfold validate
  rw [if_neg hd, hs]
  simp [hfalsy, hne]

/-- C2: in STRICT mode, a capture whose properties dict misses a required
field of the event's embedded schema raises a ValueError carrying the
event name and the error list, among them the missing-field error, and
no call reaches the wrapped SDK. -/
theorem capture_strict_missing_required (schemas : List (String × Json)) (d e f : String)
    (props : List (String × Json)) (sch : Json)
    (hs : lookupKV e schemas = some sch)
    (hf : Json.str f ∈ requiredItems sch)
    (hmiss : lookupKV f props = none) :
    ∃ errs, errs ≠ [] ∧ VErr.missingField (.str f) ∈ errs ∧
      capture .strict schemas d e (some props) = .error (.valueError e errs) ∧
      ∀ calls, capture .strict schemas d e (some props) ≠ .ok calls := by
  have hcheck : missingCheck (.str f) props = some (.missingField (.str f)) := by
    simp [missingCheck, hmiss]
  have hmem : VErr.missingField (.str f) ∈ validationErrors sch props := by
    unfold validationErrors
    exact List.mem_append.mpr (Or.inl (List.mem_filterMap.mpr ⟨.str f, hf, hcheck⟩))
  have hne : validationErrors sch props ≠ [] := List.ne_nil_of_mem hmem
  have hreq : requiredItems sch ≠ [] := by
    intro hnil
    rw [hnil] at hf
    exact absurd hf (by simp)
  have hfalsy := isFalsy_false_of_requiredItems_ne_nil sch hreq
  have hval : validate .strict schemas e props = some (validationErrors sch props) :=
    validate_pos _ _ _ _ _ (by simp) hs hfalsy hne
  have hEmp : (validationErrors sch props).isEmpty = false :=
    validate_some_isEmpty_false _ _ _ _ _ hval
  refine ⟨validationErrors sch props, hne, hmem, ?_, ?_⟩
  · simp [capture, hval, hEmp]
  · intro calls
    simp [capture, hval, hEmp]

theorem capture_strict_missing_required_witness :
    ∃ errs, errs ≠ [] ∧ VErr.missingField (.str "amount") ∈ errs ∧
      capture .strict [("purchase", .obj [("required", .arr [.str "amount"])])]
          "user-1" "purchase" (some [("currency", .str "EUR")])
        = .error (.valueError "purchase" errs) ∧
      ∀ calls, capture .strict [("purchase", .obj [("required", .arr [.str "amount"])])]
          "user-1" "purchase" (some [("currency", .str "EUR")]) ≠ .ok calls :=
  capture_strict_missing_required
    [("purchase", .obj [("required", .arr [.str "amount"])])]
    "user-1" "purchase" "amount" [("currency", .str "EUR")]
    (.obj [("required", .arr [.str "amount"])])
    rfl
    (by rw [show requiredItems (.obj [("required", .arr [.str "amount"])])
            = [Json.str "amount"] from rfl]; exact List.mem_singleton.mpr rfl)
    rfl

/-- C3: in WARNING mode, a capture whose validation yields a non-empty
error list makes exactly two SDK calls, in order: first the
`$schema_validation_warning` diagnostic carrying the event name, the
error list and the original properties, then the original event with its
properties unchanged. -/
theorem capture_warning_two_calls (schemas : List (String × Json)) (d e : String)
    (props : List (String × Json)) (errs : List VErr)
    (h : validate .warning schemas e props = some errs) :
    capture .warning schemas d e (some props)
      = .ok [⟨d, "$schema_validation_warning", .diag e errs props⟩,
             ⟨d, e, .dict props⟩] := by
  have hne := validate_some_isEmpty_false _ _ _ _ _ h
  simp [capture, h, hne]

theorem capture_warning_two_calls_witness :
    capture .warning [("purchase", .obj [("required", .arr [.str "amount"])])]
        "user-1" "purchase" (some [("currency", .str "EUR")])
      = .ok [⟨"user-1", "$schema_validation_warning",
              .diag "purchase" [.missingField (.str "amount")] [("currency", .str "EUR")]⟩,
             ⟨"user-1", "purchase", .dict [("currency", .str "EUR")]⟩] :=
  capture_warning_two_calls
    [("purchase", .obj [("required", .arr [.str "amount"])])]
    "user-1" "purchase" [("currency", .str "EUR")] [.missingField (.str "amount")]
    rfl

/-- C10: omitting properties (the Python None default) behaves exactly
like passing the empty dict: validation runs against the empty dict, so
a STRICT capture of an event whose schema has a non-empty required list
always fails when properties is None, while DISABLED mode and unknown
event names forward a single call with an empty properties dict. -/
theorem capture_none_props (schemas : List (String × Json)) (d e : String) :
    (∀ mode, capture mode schemas d e none = capture mode schemas d e (some [])) ∧
    (∀ sch, lookupKV e schemas = some sch → requiredItems sch ≠ [] →
      ∃ errs, errs ≠ [] ∧ capture .strict schemas d e none = .error (.valueError e errs)) ∧
    (capture .disabled schemas d e none = .ok [⟨d, e, .dict []⟩]) ∧
    (lookupKV e schemas = none →
      ∀ mode, capture mode schemas d e none = .ok [⟨d, e, .dict []⟩]) := by
  refine ⟨fun mode => rfl, ?_, rfl, ?_⟩
  · intro sch hs hreq
    have hfalsy := isFalsy_false_of_requiredItems_ne_nil sch hreq
    have hall : ∀ f, missingCheck f ([] : List (String × Json)) = some (.missingField f) := by
      intro f
      cases f <;> simp [missingCheck, lookupKV]
    have hmap : (requiredItems sch).filterMap (fun x => missingCheck x []) =
        (requiredItems sch).map (fun f => VErr.missingField f) := by
      induction requiredItems sch with
      | nil => rfl
      | cons f rest ih => simp [List.filterMap_cons, hall f, ih]
    have hverr : validationErrors sch [] =
        (requiredItems sch).map (fun f => VErr.missingField f) := by
      unfold validationErrors
      rw [hmap]
      simp
    have hne : validationErrors sch [] ≠ [] := by
      rw [hverr]
      simpa using hreq
    have hval : validate .strict schemas e [] = some (validationErrors sch []) :=
      validate_pos _ _ _ _ _ (by simp) hs hfalsy hne
    have hEmp : (validationErrors sch []).isEmpty = false :=
      validate_some_isEmpty_false _ _ _ _ _ hval
    refine ⟨validationErrors sch [], hne, ?_⟩
    simp [capture, hval, hEmp]
  · intro hs mode
    cases mode with
    | disabled => rfl
    | strict => simp [capture, validate, hs]
    | warning => simp [capture, validate, hs]

theorem capture_none_props_witness :
    (capture .strict [("purchase", .obj [("required", .arr [.str "amount"])])]
        "user-1" "purchase" none
      = capture .strict [("purchase", .obj [("required", .arr [.str "amount"])])]
        "user-1" "purchase" (some [])) ∧
    (∃ errs, errs ≠ [] ∧
      capture .strict [("purchase", .obj [("required", .arr [.str "amount"])])]
          "user-1" "purchase" none = .error (.valueError "purchase" errs)) ∧
    (capture .disabled [("purchase", .obj [("required", .arr [.str "amount"])])]
        "user-1" "purchase" none = .ok [⟨"user-1", "purchase", .dict []⟩]) ∧
    (capture .warning [("purchase", .obj [("required", .arr [.str "amount"])])]
        "user-1" "unknown_event" none = .ok [⟨"user-1", "unknown_event", .dict []⟩]) := by
  have h1 := capture_none_props
    [("purchase", .obj [("required", .arr [.str "amount"])])] "user-1" "purchase"
  have h2 := capture_none_props
    [("purchase", .obj [("required", .arr [.str "amount"])])] "user-1" "unknown_event"
  refine ⟨h1.1 .strict, ?_, h1.2.2.1, h2.2.2.2 rfl .warning⟩
  exact h1.2.1 (.obj [("required", .arr [.str "amount"])]) rfl
    (by rw [show requiredItems (.obj [("required", .arr [.str "amount"])])
            = [Json.str "amount"] from rfl]; simp)

theorem resolve_refs_succ (n : Nat) (s root : Json) (path : String)
    (fs : List (String × Json)) :
    resolve_refs (n + 1) s root path fs = resolveBody (resolve_refs n) s root path fs := rfl

theorem lookupKV_ne_nil {k : String} {kvs : List (String × Json)} {v : Json}
    (h : lookupKV k kvs = some v) : kvs ≠ [] := by
  intro hc
  rw [hc] at h
  cases h

theorem isFalsy_obj_false {kvs : List (String × Json)} (h : kvs ≠ []) :
    isFalsy (.obj kvs) = false := by
  cases kvs with
  | nil => exact absurd rfl h
  | cons kv rest => simp [isFalsy]

theorem resolveBody_falsy (rec : Json → Json → String → List (String × Json) → Except RErr Json)
    (s root : Json) (path : String) (fs : List (String × Json)) (h : isFalsy s = true) :
    resolveBody rec s root path fs = .ok s := by
  unfold resolveBody
  simp [h]

theorem resolveBody_ref_internal
    (rec : Json → Json → String → List (String × Json) → Except RErr Json)
    (kvs : List (String × Json)) (r : String) (root : Json) (path : String)
    (fs : List (String × Json))
    (href : lookupKV "$ref" kvs = some (.str r)) (hint : strStartsWith r "#/" = true) :
    resolveBody rec (.obj kvs) root path fs =
      match walkInternal root (strSplitOnC '/' (strDrop r 2)) with
      | .error e => .error e
      | .ok target => rec target root path fs := by
  unfold resolveBody
  rw [isFalsy_obj_false (lookupKV_ne_nil href)]
  simp [href, hint]

theorem resolveBody_ref_unrecognized
    (rec : Json → Json → String → List (String × Json) → Except RErr Json)
    (kvs : List (String × Json)) (r : String) (root : Json) (path : String)
    (fs : List (String × Json))
    (href : lookupKV "$ref" kvs = some (.str r))
    (h1 : strStartsWith r "#/" = false) (h2 : strStartsWith r "./" = false) :
    resolveBody rec (.obj kvs) root path fs = .ok (.obj kvs) := by
  unfold resolveBody
  rw [isFalsy_obj_false (lookupKV_ne_nil href)]
  simp [href, h1, h2]

theorem resolveBody_allOf (rec : Json → Json → String → List (String × Json) → Except RErr Json)
    (kvs : List (String × Json)) (av root : Json) (path : String) (fs : List (String × Json))
    (href : lookupKV "$ref" kvs = none) (hall : lookupKV "allOf" kvs = some av)
    (hne : kvs ≠ []) :
    resolveBody rec (.obj kvs) root path fs =
      match mapME (fun s => rec s root path fs) (pyIter av) with
      | .error e => .error e
      | .ok rs => .ok (mergeAllOf rs) := by
  unfold resolveBody
  rw [isFalsy_obj_false hne]
  simp [href, hall]

theorem resolveBody_plain_obj
    (rec : Json → Json → String → List (String × Json) → Except RErr Json)
    (kvs : List (String × Json)) (root : Json) (path : String) (fs : List (String × Json))
    (href : lookupKV "$ref" kvs = none) (hall : lookupKV "allOf" kvs = none) :
    resolveBody rec (.obj kvs) root path fs =
      match mapME (fun kv =>
          match rec kv.2 root path fs with
          | .error e => .error e
          | .ok v => .ok (kv.1, v)) kvs with
      | .error e => .error e
      | .ok kvs2 => .ok (.obj kvs2) := by
  cases kvs with
  | nil => simp [resolveBody, isFalsy, mapME]
  | cons kv rest =>
    unfold resolveBody
    rw [isFalsy_obj_false (by simp)]
    simp [href, hall]

theorem resolveBody_arr (rec : Json → Json → String → List (String × Json) → Except RErr Json)
    (xs : List Json) (root : Json) (path : String) (fs : List (String × Json)) :
    resolveBody rec (.arr xs) root path fs =
      match mapME (fun x => rec x root path fs) xs with
      | .error e => .error e
      | .ok ys => .ok (.arr ys) := by
  cases xs with
  | nil => simp [resolveBody, isFalsy, mapME]
  | cons x rest =>
    unfold resolveBody
    simp [isFalsy]

theorem resolveBody_scalar
    (rec : Json → Json → String → List (String × Json) → Except RErr Json)
    (s root : Json) (path : String) (fs : List (String × Json))
    (h1 : ∀ xs, s ≠ .arr xs) (h2 : ∀ kvs, s ≠ .obj kvs) :
    resolveBody rec s root path fs = .ok s := by
  cases hf : isFalsy s with
  | true => exact resolveBody_falsy rec s root path fs hf
  | false =>
    cases s with
    | arr xs => exact absurd rfl (h1 xs)
    | obj kvs => exact absurd rfl (h2 kvs)
    | null => simp [isFalsy] at hf
    | bool b => unfold resolveBody; simp [hf]
    | num n => unfold resolveBody; simp [hf]
    | str st => unfold resolveBody; simp [hf]

theorem resolveBody_ref_external
    (rec : Json → Json → String → List (String × Json) → Except RErr Json)
    (kvs : List (String × Json)) (r : String) (root : Json) (path : String)
    (fs : List (String × Json))
    (href : lookupKV "$ref" kvs = some (.str r))
    (h1 : strStartsWith r "#/" = false) (h2 : strStartsWith r "./" = true) :
    resolveBody rec (.obj kvs) root path fs =
      match strSplitOnC '#' r with
      | [] => .error .attrError
      | refFileRel :: rest =>
        match lookupKV (joinPath (parentDir path) refFileRel) fs with
        | none => .error .fileNotFound
        | some content =>
          match rest with
          | frag :: _ =>
            if frag = "" then .ok content
            else
              match walkExternal content (strSplitOnC '/' (strDrop frag 1)) with
              | .error e => .error e
              | .ok target => rec target content (joinPath (parentDir path) refFileRel) fs
          | [] => .ok content := by
  unfold resolveBody
  rw [isFalsy_obj_false (lookupKV_ne_nil href)]
  simp [href, h1, h2]

/-- C6 (amended): a `$ref` whose string starts with neither `#/` nor `./`
is NOT reported: `resolve_refs` falls through both scheme branches and
returns the fragment unchanged, `$ref` key included, with no error
surfaced to the caller. -/
theorem resolve_refs_unrecognized_scheme (n : Nat) (kvs : List (String × Json)) (r : String)
    (root : Json) (path : String) (fs : List (String × Json))
    (href : lookupKV "$ref" kvs = some (.str r))
    (h1 : strStartsWith r "#/" = false) (h2 : strStartsWith r "./" = false) :
    resolve_refs (n + 1) (.obj kvs) root path fs = .ok (.obj kvs) := by
  rw [resolve_refs_succ]
  exact resolveBody_ref_unrecognized _ kvs r root path fs href h1 h2

theorem resolve_refs_unrecognized_scheme_witness :
    resolve_refs 1 (.obj [("$ref", .str "definitions/X")]) (.obj []) "schemas/a.json" []
      = .ok (.obj [("$ref", .str "definitions/X")]) :=
  resolve_refs_unrecognized_scheme 0 [("$ref", .str "definitions/X")] "definitions/X"
    (.obj []) "schemas/a.json" [] rfl rfl rfl

/-- C6 counterexample: a fragment whose `$ref` is `definitions/X` (an
unrecognized scheme: no `#/`, no `./`) is returned unchanged with its
`$ref` key intact, and no unsupported-reference error is surfaced. -/
theorem resolve_refs_unrecognized_silent :
    resolve_refs 1 (.obj [("$ref", .str "definitions/X")]) (.obj []) "schemas/a.json" []
      = .ok (.obj [("$ref", .str "definitions/X")]) ∧
    ∀ err, resolve_refs 1 (.obj [("$ref", .str "definitions/X")]) (.obj []) "schemas/a.json" []
      ≠ .error err := by
  refine ⟨rfl, fun err h => ?_⟩
  rw [show resolve_refs 1 (.obj [("$ref", .str "definitions/X")]) (.obj []) "schemas/a.json" []
      = .ok (.obj [("$ref", .str "definitions/X")]) from rfl] at h
  exact Except.noConfusion h

/-- C7 (amended): an internal `$ref` whose pointer walk comes up empty
(a missing segment, with every traversed prefix a dict) resolves to the
absent value None and propagates it; but an external `$ref` to a missing
file raises FileNotFoundError (see the counterexample), so resolution
does not never-crash. -/
theorem resolve_refs_internal_missing_absent (n : Nat) (kvs : List (String × Json)) (r : String)
    (root : Json) (path : String) (fs : List (String × Json))
    (href : lookupKV "$ref" kvs = some (.str r))
    (hint : strStartsWith r "#/" = true)
    (hw : walkInternal root (strSplitOnC '/' (strDrop r 2)) = .ok .null) :
    resolve_refs (n + 2) (.obj kvs) root path fs = .ok .null := by
  rw [resolve_refs_succ]
  rw [resolveBody_ref_internal _ kvs r root path fs href hint, hw]
  rfl

theorem resolve_refs_internal_missing_absent_witness :
    resolve_refs 2 (.obj [("$ref", .str "#/definitions/Missing")])
      (.obj [("definitions", .obj [("Known", .str "x")])]) "schemas/a.json" [] = .ok .null :=
  resolve_refs_internal_missing_absent 0 [("$ref", .str "#/definitions/Missing")]
    "#/definitions/Missing" (.obj [("definitions", .obj [("Known", .str "x")])])
    "schemas/a.json" [] rfl rfl rfl

/-- C7 counterexample: an external `$ref` to a file absent from the
filesystem does not resolve to an absent value — the `open` call raises
FileNotFoundError, aborting the generation run. -/
theorem resolve_refs_missing_file_crash :
    resolve_refs 1 (.obj [("$ref", .str "./missing.json")]) (.obj []) "schemas/a.json" []
      = .error .fileNotFound ∧
    ∀ v, resolve_refs 1 (.obj [("$ref", .str "./missing.json")]) (.obj []) "schemas/a.json" []
      ≠ .ok v := by
  refine ⟨rfl, fun v h => ?_⟩
  rw [show resolve_refs 1 (.obj [("$ref", .str "./missing.json")]) (.obj []) "schemas/a.json" []
      = .error .fileNotFound from rfl] at h
  exact Except.noConfusion h

/-- A self-referential fragment: `#/definitions/A` points back at itself. -/
def cycSchema : Json := .obj [("$ref", .str "#/definitions/A")]

/-- A root document in which `definitions.A` is the self-referential
fragment `cycSchema`. -/
def cycRoot : Json := .obj [("definitions", .obj [("A", cycSchema)])]

theorem cycle_fuel_aux : ∀ n, resolve_refs n cycSchema cycRoot "schemas/a.json" []
    = .error .fuel := by
  intro n
  induction n with
  | zero => rfl
  | succ k ih =>
    rw [show resolve_refs (k + 1) cycSchema cycRoot "schemas/a.json" []
        = resolve_refs k cycSchema cycRoot "schemas/a.json" [] from rfl]
    exact ih

/-- C8 (amended): `resolve_refs` has no cycle detection. On the
self-referential input `cycSchema`/`cycRoot`, the Python function calls
itself forever; in the fuel model, every recursion budget is exhausted
and no cyclic-reference error (no such error exists in the code) is ever
produced. -/
theorem resolve_refs_cycle_diverges (n : Nat) :
    resolve_refs n cycSchema cycRoot "schemas/a.json" [] = .error .fuel :=
  cycle_fuel_aux n

/-- C8 counterexample: on a reference cycle, resolution never terminates
with any value or error other than fuel exhaustion, refuting the claim
that it terminates and fails with a cyclic-reference error. -/
theorem resolve_refs_cycle_never_resolves :
    ¬ ∃ n r, resolve_refs n cycSchema cycRoot "schemas/a.json" [] = Except.ok r := by
  rintro ⟨n, r, h⟩
  rw [cycle_fuel_aux n] at h
  exact Except.noConfusion h

theorem json_sizeOf_pos (j : Json) : 1 ≤ sizeOf j := by
  cases j <;> simp

theorem sizeOf_snd_lt_of_mem {kvs : List (String × Json)} {kv : String × Json} (h : kv ∈ kvs) :
    sizeOf kv.2 < sizeOf kvs := by
  induction kvs with
  | nil => cases h
  | cons hd tl ih =>
    rcases List.mem_cons.mp h with h1 | h1
    · subst h1
      obtain ⟨k, v⟩ := kv
      simp
      omega
    · have := ih h1
      simp
      omega

theorem sizeOf_val_lt_obj {kvs : List (String × Json)} {kv : String × Json} (h : kv ∈ kvs) :
    sizeOf kv.2 < sizeOf (Json.obj kvs) := by
  have := sizeOf_snd_lt_of_mem h
  simp
  omega

theorem sizeOf_mem_lt_list {xs : List Json} {x : Json} (h : x ∈ xs) : sizeOf x < sizeOf xs := by
  induction xs with
  | nil => cases h
  | cons hd tl ih =>
    rcases List.mem_cons.mp h with h1 | h1
    · subst h1
      simp
      omega
    · have := ih h1
      simp
      omega

theorem sizeOf_item_lt_arr {xs : List Json} {x : Json} (h : x ∈ xs) :
    sizeOf x < sizeOf (Json.arr xs) := by
  have := sizeOf_mem_lt_list h
  simp
  omega

theorem noRefVals_mem {kvs : List (String × Json)} (h : noRefVals kvs = true)
    {kv : String × Json} (hm : kv ∈ kvs) : noRefAllOf kv.2 = true := by
  induction kvs with
  | nil => cases hm
  | cons hd tl ih =>
    simp only [noRefVals, Bool.and_eq_true] at h
    rcases List.mem_cons.mp hm with h1 | h1
    · subst h1; exact h.1
    · exact ih h.2 h1

theorem noRefAllOf_obj {kvs : List (String × Json)} (h : noRefAllOf (.obj kvs) = true) :
    lookupKV "$ref" kvs = none ∧ lookupKV "allOf" kvs = none ∧ noRefVals kvs = true := by
  simp only [noRefAllOf, Bool.and_eq_true, Option.isNone_iff_eq_none] at h
  exact ⟨h.1.1, h.1.2, h.2⟩

theorem noRefItems_mem {xs : List Json} (h : noRefItems xs = true) {x : Json} (hm : x ∈ xs) :
    noRefAllOf x = true := by
  induction xs with
  | nil => cases hm
  | cons hd tl ih =>
    simp only [noRefItems, Bool.and_eq_true] at h
    rcases List.mem_cons.mp hm with h1 | h1
    · subst h1; exact h.1
    · exact ih h.2 h1

theorem noRefAllOf_arr {xs : List Json} (h : noRefAllOf (.arr xs) = true) :
    noRefItems xs = true := by
  simpa [noRefAllOf] using h

/-- C9: resolving an already-resolved fragment is the identity. A
fragment with no reachable `$ref` or `allOf` key anywhere is returned
exactly as it came in: same keys, same order, same values, given a
recursion budget at least the size of the fragment. -/
theorem resolve_refs_idempotent : ∀ (fuel : Nat) (s root : Json) (path : String)
    (fs : List (String × Json)), noRefAllOf s = true → sizeOf s ≤ fuel →
    resolve_refs fuel s root path fs = .ok s := by
  intro fuel
  induction fuel with
  | zero =>
    intro s root path fs hnoref hfuel
    have := json_sizeOf_pos s
    omega
  | succ n ih =>
    intro s root path fs hnoref hfuel
    rw [resolve_refs_succ]
    cases hf : isFalsy s with
    | true => exact resolveBody_falsy _ s root path fs hf
    | false =>
      cases s with
      | obj kvs =>
        obtain ⟨h1, h2, h3⟩ := noRefAllOf_obj hnoref
        rw [resolveBody_plain_obj _ kvs root path fs h1 h2]
        have hmap : ∀ l : List (String × Json),
            (∀ kv ∈ l, noRefAllOf kv.2 = true) → (∀ kv ∈ l, sizeOf kv.2 ≤ n) →
            mapME (fun kv =>
              match resolve_refs n kv.2 root path fs with
              | .error e => .error e
              | .ok v => .ok (kv.1, v)) l = .ok l := by
          intro l
          induction l with
          | nil => intro _ _; rfl
          | cons kv rest ihl =>
            intro ha hb
            simp only [mapME]
            rw [ih kv.2 root path fs (ha kv (by simp)) (hb kv (by simp))]
            rw [ihl (fun x hx => ha x (by simp [hx])) (fun x hx => hb x (by simp [hx]))]
        rw [hmap kvs (fun kv hm => noRefVals_mem h3 hm)
            (fun kv hm => by have := sizeOf_val_lt_obj hm; omega)]
      | arr xs =>
        have h3 := noRefAllOf_arr hnoref
        rw [resolveBody_arr]
        have hmap : ∀ l : List Json,
            (∀ x ∈ l, noRefAllOf x = true) → (∀ x ∈ l, sizeOf x ≤ n) →
            mapME (fun x => resolve_refs n x root path fs) l = .ok l := by
          intro l
          induction l with
          | nil => intro _ _; rfl
          | cons x rest ihl =>
            intro ha hb
            simp only [mapME]
            rw [ih x root path fs (ha x (by simp)) (hb x (by simp))]
            rw [ihl (fun y hy => ha y (by simp [hy])) (fun y hy => hb y (by simp [hy]))]
        rw [hmap xs (fun x hm => noRefItems_mem h3 hm)
            (fun x hm => by have := sizeOf_item_lt_arr hm; omega)]
      | null => simp [isFalsy] at hf
      | bool b =>
        exact resolveBody_scalar _ _ root path fs
          (fun xs h => Json.noConfusion h) (fun kvs h => Json.noConfusion h)
      | num m =>
        exact resolveBody_scalar _ _ root path fs
          (fun xs h => Json.noConfusion h) (fun kvs h => Json.noConfusion h)
      | str st =>
        exact resolveBody_scalar _ _ root path fs
          (fun xs h => Json.noConfusion h) (fun kvs h => Json.noConfusion h)

theorem resolve_refs_idempotent_witness :
    noRefAllOf (.obj [("type", .str "object"),
      ("properties", .obj [("name", .obj [("type", .str "string")])]),
      ("required", .arr [.str "name"])]) = true ∧
    resolve_refs
      (sizeOf (Json.obj [("type", .str "object"),
        ("properties", .obj [("name", .obj [("type", .str "string")])]),
        ("required", .arr [.str "name"])]))
      (.obj [("type", .str "object"),
        ("properties", .obj [("name", .obj [("type", .str "string")])]),
        ("required", .arr [.str "name"])]) (.obj []) "schemas/a.json" []
      = .ok (.obj [("type", .str "object"),
        ("properties", .obj [("name", .obj [("type", .str "string")])]),
        ("required", .arr [.str "name"])]) := by
  refine ⟨by decide, resolve_refs_idempotent _ _ (.obj []) "schemas/a.json" [] (by decide)
    (Nat.le_refl _)⟩

theorem lookupKV_eq_none_of_not_mem {k : String} {l : List (String × Json)}
    (h : k ∉ l.map Prod.fst) : lookupKV k l = none := by
  induction l with
  | nil => rfl
  | cons hd tl ih =>
    simp only [List.map_cons, List.mem_cons] at h
    push_neg at h
    rw [lookupKV, if_neg (fun hc => h.1 hc.symm)]
    exact ih h.2

theorem lookupKV_append (k : String) (l1 l2 : List (String × Json)) :
    lookupKV k (l1 ++ l2) = (lookupKV k l1).or (lookupKV k l2) := by
  induction l1 with
  | nil => simp [lookupKV]
  | cons hd tl ih =>
    by_cases hhd : hd.1 = k
    · simp [lookupKV, hhd]
    · simp [lookupKV, hhd, ih]

theorem lookupKV_replaceAll (k k' : String) (v : Json) (l : List (String × Json)) :
    lookupKV k' (l.map (fun e => if e.1 = k then (k, v) else e)) =
      if k' = k then (if (lookupKV k l).isSome then some v else none) else lookupKV k' l := by
  induction l with
  | nil => simp [lookupKV]
  | cons hd tl ih =>
    simp only [List.map_cons]
    by_cases hhd : hd.1 = k
    · by_cases hk : k' = k
      · subst hk
        simp [lookupKV, hhd, ih]
      · have h2 : ¬ hd.1 = k' := by
          rw [hhd]
          exact fun hc => hk hc.symm
        have h3 : ¬ k = k' := fun hc => hk hc.symm
        simp [lookupKV, hhd, h2, h3, hk, ih]
    · by_cases hk : k' = k
      · subst hk
        have h2 : ¬ hd.1 = k' := hhd
        simp [lookupKV, h2, ih]
      · by_cases hk2 : hd.1 = k'
        · simp [lookupKV, hk2, hk]
        · simp [lookupKV, hhd, hk2, hk, ih]

theorem lookupKV_setKey (l : List (String × Json)) (k k' : String) (v : Json) :
    lookupKV k' (setKey l k v) = if k' = k then some v else lookupKV k' l := by
  unfold setKey
  cases hs : (lookupKV k l).isSome with
  | false =>
    have hnone : lookupKV k l = none := by
      cases hl : lookupKV k l
      · rfl
      · rw [hl] at hs; cases hs
    simp only [Bool.false_eq_true, if_false]
    rw [lookupKV_append]
    by_cases hk : k' = k
    · rw [if_pos hk, hk, hnone]
      simp [lookupKV]
    · rw [if_neg hk]
      have h1 : lookupKV k' [(k, v)] = none := by
        rw [lookupKV, if_neg (fun hc : k = k' => hk hc.symm)]
        rfl
      rw [h1]
      simp
  | true =>
    simp only [if_true]
    rw [lookupKV_replaceAll, hs]
    by_cases hk : k' = k
    · simp [hk]
    · simp [hk]

theorem lookupKV_updateEntries (k : String) : ∀ (upd base : List (String × Json)),
    (upd.map Prod.fst).Nodup →
    lookupKV k (updateEntries base upd) = (lookupKV k upd).or (lookupKV k base)
  | [], base, _ => by simp [updateEntries, lookupKV]
  | (k0, v0) :: tl, base, hnd => by
    have hnd0 : k0 ∉ tl.map Prod.fst := by
      simp only [List.map_cons, List.nodup_cons] at hnd
      exact hnd.1
    have hnd2 : (tl.map Prod.fst).Nodup := by
      simp only [List.map_cons, List.nodup_cons] at hnd
      exact hnd.2
    rw [show updateEntries base ((k0, v0) :: tl) = updateEntries (setKey base k0 v0) tl from rfl]
    rw [lookupKV_updateEntries k tl _ hnd2]
    rw [lookupKV_setKey]
    by_cases hk : k = k0
    · subst hk
      have hnone : lookupKV k tl = none := lookupKV_eq_none_of_not_mem hnd0
      rw [hnone, lookupKV, if_pos rfl]
      simp
    · rw [if_neg hk, lookupKV, if_neg (fun hc : k0 = k => hk hc.symm)]

theorem mergedProps_foldl : ∀ (rs : List Json)
    (acc : List (String × Json) × List Json × Option Json),
    (rs.foldl mergeStep acc).1 = rs.foldl (fun p r => updateEntries p (propsEntriesOf r)) acc.1
  | [], _ => rfl
  | r :: tl, acc => by
    rw [List.foldl_cons, List.foldl_cons]
    rw [mergedProps_foldl tl (mergeStep acc r)]
    congr 1
    cases r <;> rfl

theorem mergedReq_foldl : ∀ (rs : List Json)
    (acc : List (String × Json) × List Json × Option Json),
    (rs.foldl mergeStep acc).2.1 = acc.2.1 ++ (rs.map reqItemsOf).flatten
  | [], acc => by simp
  | r :: tl, acc => by
    rw [List.foldl_cons, mergedReq_foldl tl (mergeStep acc r)]
    have h1 : (mergeStep acc r).2.1 = acc.2.1 ++ reqItemsOf r := by
      cases r <;> simp [mergeStep, reqItemsOf]
    rw [h1]
    simp

theorem mergedAddl_foldl : ∀ (rs : List Json)
    (acc : List (String × Json) × List Json × Option Json),
    (rs.foldl mergeStep acc).2.2 = (rs.reverse.findSome? addlOf).or acc.2.2
  | [], acc => by simp
  | r :: tl, acc => by
    rw [List.foldl_cons, mergedAddl_foldl tl (mergeStep acc r)]
    rw [List.reverse_cons, List.findSome?_append]
    have h1 : (mergeStep acc r).2.2 = (addlOf r).or acc.2.2 := by
      cases r with
      | obj rkvs =>
        simp only [mergeStep]
        cases addlOf (.obj rkvs) <;> simp [Option.or]
      | null => simp [mergeStep, addlOf, Option.or]
      | bool b => simp [mergeStep, addlOf, Option.or]
      | num m => simp [mergeStep, addlOf, Option.or]
      | str st => simp [mergeStep, addlOf, Option.or]
      | arr xs => simp [mergeStep, addlOf, Option.or]
    rw [h1]
    cases tl.reverse.findSome? addlOf <;> cases haddl : addlOf r <;>
      simp [List.findSome?, haddl, Option.or]

theorem lookupKV_foldProps (k : String) : ∀ (rs : List Json) (base : List (String × Json)),
    (∀ r ∈ rs, ((propsEntriesOf r).map Prod.fst).Nodup) →
    lookupKV k (rs.foldl (fun p r => updateEntries p (propsEntriesOf r)) base) =
      (rs.reverse.findSome? (fun r => lookupKV k (propsEntriesOf r))).or (lookupKV k base)
  | [], base, _ => by simp
  | r :: tl, base, hnd => by
    rw [List.foldl_cons]
    rw [lookupKV_foldProps k tl _ (fun x hx => hnd x (List.mem_cons_of_mem _ hx))]
    rw [lookupKV_updateEntries k _ _ (hnd r (List.mem_cons_self _ _))]
    rw [List.reverse_cons, List.findSome?_append]
    cases tl.reverse.findSome? (fun r => lookupKV k (propsEntriesOf r)) <;>
      cases hr : lookupKV k (propsEntriesOf r) <;>
        simp [List.findSome?, hr, Option.or]

/-- Reading of the merge taken from the specification text, for
`properties`: the value a key gets is the one from the last (latest in
array order) resolved member whose properties define that key. -/
def lastPropLookup (rs : List Json) (k : String) : Option Json :=
  rs.reverse.findSome? (fun r => lookupKV k (propsEntriesOf r))

/-- Reading of the merge taken from the specification text, for
`additionalProperties`: the value of the last resolved member that
defines it. -/
def lastAddl (rs : List Json) : Option Json :=
  rs.reverse.findSome? addlOf

/-- C4 (amended): for a fragment holding an `allOf` array and no `$ref`
key (a `$ref` key would shadow the `allOf`, see the counterexample),
`resolve_refs` resolves each member against the same root and path and
merges the resolutions in array order into one object fragment: its
`properties` maps every key to the value from the last member defining
it, its `required` is the deduplicated union (order not significant) of
all members' required items, and its `additionalProperties` comes from
the last member that defines one. -/
theorem resolve_refs_allOf_merge (n : Nat) (kvs : List (String × Json)) (subs rs : List Json)
    (root : Json) (path : String) (fs : List (String × Json))
    (href : lookupKV "$ref" kvs = none)
    (hall : lookupKV "allOf" kvs = some (.arr subs))
    (hres : mapME (fun s => resolve_refs n s root path fs) subs = .ok rs)
    (hnd : ∀ r ∈ rs, ((propsEntriesOf r).map Prod.fst).Nodup) :
    resolve_refs (n + 1) (.obj kvs) root path fs = .ok (mergeAllOf rs) ∧
    (∀ k, lookupKV k (mergedProps rs) = lastPropLookup rs k) ∧
    (∀ x, x ∈ (mergedReq rs).dedup ↔ ∃ r ∈ rs, x ∈ reqItemsOf r) ∧
    (mergedReq rs).dedup.Nodup ∧
    mergedAddl rs = lastAddl rs := by
  refine ⟨?_, ?_, ?_, List.nodup_dedup _, ?_⟩
  · rw [resolve_refs_succ]
    rw [resolveBody_allOf _ kvs (.arr subs) root path fs href hall (lookupKV_ne_nil hall)]
    rw [show pyIter (.arr subs) = subs from rfl, hres]
  · intro k
    unfold mergedProps lastPropLookup
    rw [mergedProps_foldl, lookupKV_foldProps k rs [] hnd]
    simp [lookupKV]
  · intro x
    rw [List.mem_dedup]
    unfold mergedReq
    rw [mergedReq_foldl]
    simp [List.mem_flatten]
  · unfold mergedAddl lastAddl
    rw [mergedAddl_foldl]
    simp

/-- First allOf member for the merge witness: requires `x`, types it as a
string. -/
def allOfMemberA : Json :=
  .obj [("properties", .obj [("x", .obj [("type", .str "string")])]),
        ("required", .arr [.str "x"])]

/-- Second allOf member for the merge witness: retypes `x` as a number,
adds `y`, requires both, and sets `additionalProperties`. -/
def allOfMemberB : Json :=
  .obj [("properties", .obj [("x", .obj [("type", .str "number")]),
                             ("y", .obj [("type", .str "boolean")])]),
        ("required", .arr [.str "x", .str "y"]),
        ("additionalProperties", .bool false)]

theorem resolve_refs_allOf_merge_witness :
    resolve_refs 11 (.obj [("allOf", .arr [allOfMemberA, allOfMemberB])]) (.obj [])
        "schemas/a.json" [] = .ok (mergeAllOf [allOfMemberA, allOfMemberB]) ∧
    lookupKV "x" (mergedProps [allOfMemberA, allOfMemberB])
      = lastPropLookup [allOfMemberA, allOfMemberB] "x" ∧
    (Json.str "y" ∈ (mergedReq [allOfMemberA, allOfMemberB]).dedup ↔
      ∃ r ∈ [allOfMemberA, allOfMemberB], Json.str "y" ∈ reqItemsOf r) ∧
    (mergedReq [allOfMemberA, allOfMemberB]).dedup.Nodup ∧
    mergedAddl [allOfMemberA, allOfMemberB] = lastAddl [allOfMemberA, allOfMemberB] := by
  have h := resolve_refs_allOf_merge 10 [("allOf", .arr [allOfMemberA, allOfMemberB])]
    [allOfMemberA, allOfMemberB] [allOfMemberA, allOfMemberB] (.obj []) "schemas/a.json" []
    rfl rfl rfl (by decide)
  exact ⟨h.1, h.2.1 "x", h.2.2.1 (Json.str "y"), h.2.2.2.1, h.2.2.2.2⟩

/-- C4 counterexample: a fragment containing BOTH a `$ref` key and an
`allOf` list follows the `$ref` branch and never merges: with
`definitions.A = {"type": "number"}`, the result is that target — it has
no `properties` key at all (the allOf member defining property `x` is
ignored) and its `type` is `number`, not the merged object fragment. -/
theorem resolve_refs_allOf_shadowed_by_ref :
    resolve_refs 3
      (.obj [("$ref", .str "#/definitions/A"),
             ("allOf", .arr [.obj [("properties",
                .obj [("x", .obj [("type", .str "string")])])]])])
      (.obj [("definitions", .obj [("A", .obj [("type", .str "number")])])])
      "schemas/a.json" []
      = .ok (.obj [("type", .str "number")]) ∧
    lookupKV "allOf"
      [("$ref", Json.str "#/definitions/A"),
       ("allOf", Json.arr [Json.obj [("properties",
          Json.obj [("x", Json.obj [("type", Json.str "string")])])]])]
      = some (.arr [.obj [("properties", .obj [("x", .obj [("type", .str "string")])])]]) ∧
    lookupKV "properties" [("type", Json.str "number")] = none ∧
    lookupKV "type" [("type", Json.str "number")] = some (.str "number") :=
  ⟨rfl, rfl, rfl, rfl⟩

instance : IsTotal (String × Json) (fun a b : String × Json => strLeB a.1 b.1 = true) :=
  ⟨fun a b => strLeB_total a.1 b.1⟩

instance : IsTrans (String × Json) (fun a b : String × Json => strLeB a.1 b.1 = true) :=
  ⟨fun a b c => strLeB_trans a.1 b.1 c.1⟩

instance : IsTotal ResolvedEvent
    (fun a b : ResolvedEvent => strLeB b.event_name a.event_name = true) :=
  ⟨fun a b => (strLeB_total b.event_name a.event_name)⟩

instance : IsTrans ResolvedEvent
    (fun a b : ResolvedEvent => strLeB b.event_name a.event_name = true) :=
  ⟨fun a b c hab hbc => strLeB_trans c.event_name b.event_name a.event_name hbc hab⟩

instance : IsAntisymm (String × Json)
    (fun a b : String × Json => strLeB a.1 b.1 = true ∧ a.1 ≠ b.1) :=
  ⟨fun a b h1 h2 => absurd (strLeB_antisymm a.1 b.1 h1.1 h2.1) h1.2⟩

theorem insertionSort_path_eq_of_perm (files1 files2 : List (String × Json))
    (hperm : files1.Perm files2) (hnd : (files1.map Prod.fst).Nodup) :
    List.insertionSort (fun a b : String × Json => strLeB a.1 b.1 = true) files1 =
    List.insertionSort (fun a b : String × Json => strLeB a.1 b.1 = true) files2 := by
  set r := fun a b : String × Json => strLeB a.1 b.1 = true with hr
  have hp1 : (List.insertionSort r files1).Perm files1 := List.perm_insertionSort r files1
  have hp2 : (List.insertionSort r files2).Perm files2 := List.perm_insertionSort r files2
  have hp : (List.insertionSort r files1).Perm (List.insertionSort r files2) :=
    (hp1.trans hperm).trans hp2.symm
  have hs1 : (List.insertionSort r files1).Pairwise r := List.sorted_insertionSort r files1
  have hs2 : (List.insertionSort r files2).Pairwise r := List.sorted_insertionSort r files2
  have hnd1 : ((List.insertionSort r files1).map Prod.fst).Nodup :=
    ((hp1.map Prod.fst).nodup_iff).mpr hnd
  have hnd2 : ((List.insertionSort r files2).map Prod.fst).Nodup :=
    ((hp2.map Prod.fst).nodup_iff).mpr (((hperm.map Prod.fst).nodup_iff).mp hnd)
  have hne1 : (List.insertionSort r files1).Pairwise (fun a b => a.1 ≠ b.1) :=
    List.pairwise_map.mp hnd1
  have hne2 : (List.insertionSort r files2).Pairwise (fun a b => a.1 ≠ b.1) :=
    List.pairwise_map.mp hnd2
  have hstrict1 : (List.insertionSort r files1).Pairwise
      (fun a b : String × Json => strLeB a.1 b.1 = true ∧ a.1 ≠ b.1) := hs1.and hne1
  have hstrict2 : (List.insertionSort r files2).Pairwise
      (fun a b : String × Json => strLeB a.1 b.1 = true ∧ a.1 ≠ b.1) := hs2.and hne2
  exact List.eq_of_perm_of_sorted hp hstrict1 hstrict2

/-- C5: the event sequence produced by `load_schemas` (and hence the key
order of the embedded schema table built from it) is sorted in
descending lexicographic order of event name, and it is independent of
the enumeration order of the glob matches (the code sorts the matched
paths first), given that matched paths are distinct, as glob results
are. Map iteration order is the documents' insertion order, which
travels with each file. -/
theorem load_schemas_sorted_deterministic (fuel : Nat) (files1 files2 fs : List (String × Json))
    (evs : List ResolvedEvent)
    (hperm : files1.Perm files2)
    (hnd : (files1.map Prod.fst).Nodup)
    (h1 : load_schemas fuel files1 fs = .ok evs) :
    evs.Pairwise (fun a b => strLeB b.event_name a.event_name = true) ∧
    load_schemas fuel files2 fs = .ok evs := by
  have hfile := insertionSort_path_eq_of_perm files1 files2 hperm hnd
  simp only [load_schemas] at h1
  constructor
  · split at h1
    · cases h1
    · cases h1
      exact List.sorted_insertionSort _ _
  · simp only [load_schemas, ← hfile]
    exact h1

theorem load_schemas_sorted_deterministic_witness :
    ([{ event_name := "beta_event", type_name := "BetaEventProperties",
        schema := Json.obj [], properties := Json.obj [], required := Json.arr [] },
      { event_name := "alpha_event", type_name := "AlphaEventProperties",
        schema := Json.obj [], properties := Json.obj [], required := Json.arr [] }]
      : List ResolvedEvent).Pairwise
        (fun a b => strLeB b.event_name a.event_name = true) ∧
    load_schemas 4
      [("schemas/a.json", .obj [("events", .obj [("beta_event", .obj [])])]),
       ("schemas/b.json", .obj [("events", .obj [("alpha_event", .obj [])])])] []
      = .ok [{ event_name := "beta_event", type_name := "BetaEventProperties",
               schema := Json.obj [], properties := Json.obj [], required := Json.arr [] },
             { event_name := "alpha_event", type_name := "AlphaEventProperties",
               schema := Json.obj [], properties := Json.obj [], required := Json.arr [] }] :=
  load_schemas_sorted_deterministic 4
    [("schemas/b.json", .obj [("events", .obj [("alpha_event", .obj [])])]),
     ("schemas/a.json", .obj [("events", .obj [("beta_event", .obj [])])])]
    [("schemas/a.json", .obj [("events", .obj [("beta_event", .obj [])])]),
     ("schemas/b.json", .obj [("events", .obj [("alpha_event", .obj [])])])]
    [] _
    (List.Perm.swap _ _ _)
    (by decide)
    rfl

theorem lookupKV_some_mem {k : String} {l : List (String × Json)} {v : Json}
    (h : lookupKV k l = some v) : (k, v) ∈ l := by
  induction l with
  | nil => cases h
  | cons hd tl ih =>
    rw [lookupKV] at h
    by_cases hhd : hd.1 = k
    · rw [if_pos hhd] at h
      cases h
      exact List.mem_cons.mpr (Or.inl (by rw [← hhd]))
    · rw [if_neg hhd] at h
      exact List.mem_cons_of_mem _ (ih h)

theorem lookupKV_eq_none_iff {k : String} {l : List (String × Json)} :
    lookupKV k l = none ↔ k ∉ l.map Prod.fst := by
  constructor
  · intro h hmem
    induction l with
    | nil => cases hmem
    | cons hd tl ih =>
      rw [lookupKV] at h
      by_cases hhd : hd.1 = k
      · rw [if_pos hhd] at h
        cases h
      · rw [if_neg hhd] at h
        simp only [List.map_cons, List.mem_cons] at hmem
        rcases hmem with h1 | h1
        · exact hhd h1.symm
        · exact ih h h1
  · exact lookupKV_eq_none_of_not_mem

theorem noRefAllOf_falsy {s : Json} (h : isFalsy s = true) : noRefAllOf s = true := by
  cases s with
  | null => rfl
  | bool b => rfl
  | num n => rfl
  | str st => rfl
  | arr xs =>
    simp only [isFalsy, List.isEmpty_iff] at h
    subst h
    rfl
  | obj kvs =>
    simp only [isFalsy, List.isEmpty_iff] at h
    subst h
    rfl

theorem goodVals_mem {kvs : List (String × Json)} (h : goodVals kvs = true)
    {kv : String × Json} (hm : kv ∈ kvs) : goodRefs kv.2 = true := by
  induction kvs with
  | nil => cases hm
  | cons hd tl ih =>
    simp only [goodVals, Bool.and_eq_true] at h
    rcases List.mem_cons.mp hm with h1 | h1
    · subst h1; exact h.1
    · exact ih h.2 h1

theorem goodRefs_obj {kvs : List (String × Json)} (h : goodRefs (.obj kvs) = true) :
    refSchemeOk kvs = true ∧ goodVals kvs = true := by
  simpa only [goodRefs, Bool.and_eq_true] using h

theorem goodItems_mem {xs : List Json} (h : goodItems xs = true) {x : Json} (hm : x ∈ xs) :
    goodRefs x = true := by
  induction xs with
  | nil => cases hm
  | cons hd tl ih =>
    simp only [goodItems, Bool.and_eq_true] at h
    rcases List.mem_cons.mp hm with h1 | h1
    · subst h1; exact h.1
    · exact ih h.2 h1

theorem goodRefs_arr {xs : List Json} (h : goodRefs (.arr xs) = true) : goodItems xs = true := by
  simpa only [goodRefs] using h

theorem walkInternal_good : ∀ (segs : List String) (cur : Json), goodRefs cur = true →
    ∀ v, walkInternal cur segs = .ok v → goodRefs v = true
  | [], cur, h, v, hw => by
    rw [walkInternal] at hw
    cases hw
    exact h
  | p :: ps, cur, h, v, hw => by
    cases cur with
    | obj kvs =>
      rw [walkInternal] at hw
      cases hl : lookupKV p kvs with
      | none =>
        rw [hl] at hw
        cases hw
        rfl
      | some w =>
        rw [hl] at hw
        cases w with
        | null => cases hw; rfl
        | bool b => exact walkInternal_good ps _ (goodVals_mem (goodRefs_obj h).2 (lookupKV_some_mem hl)) v hw
        | num m => exact walkInternal_good ps _ (goodVals_mem (goodRefs_obj h).2 (lookupKV_some_mem hl)) v hw
        | str st => exact walkInternal_good ps _ (goodVals_mem (goodRefs_obj h).2 (lookupKV_some_mem hl)) v hw
        | arr xs => exact walkInternal_good ps _ (goodVals_mem (goodRefs_obj h).2 (lookupKV_some_mem hl)) v hw
        | obj okvs => exact walkInternal_good ps _ (goodVals_mem (goodRefs_obj h).2 (lookupKV_some_mem hl)) v hw
    | null => cases hw
    | bool b => cases hw
    | num m => cases hw
    | str st => cases hw
    | arr xs => cases hw

theorem walkExternal_cons_eq (kvs : List (String × Json)) (p : String) (ps : List String) :
    walkExternal (.obj kvs) (p :: ps) =
      match lookupKV p kvs with
      | some w => walkExternal w ps
      | none =>
        match ps with
        | [] => .ok .null
        | _ :: _ => .error .attrError := rfl

theorem walkExternal_good : ∀ (segs : List String) (cur : Json), goodRefs cur = true →
    ∀ v, walkExternal cur segs = .ok v → goodRefs v = true
  | [], cur, h, v, hw => by
    rw [walkExternal] at hw
    cases hw
    exact h
  | p :: ps, cur, h, v, hw => by
    cases cur with
    | obj kvs =>
      rw [walkExternal_cons_eq] at hw
      cases hl : lookupKV p kvs with
      | none =>
        rw [hl] at hw
        cases ps with
        | nil => cases hw; rfl
        | cons q qs => cases hw
      | some w =>
        rw [hl] at hw
        exact walkExternal_good ps _ (goodVals_mem (goodRefs_obj h).2 (lookupKV_some_mem hl)) v hw
    | null => cases hw
    | bool b => cases hw
    | num m => cases hw
    | str st => cases hw
    | arr xs => cases hw

theorem pyIter_good {v : Json} (h : goodRefs v = true) {x : Json} (hm : x ∈ pyIter v) :
    goodRefs x = true := by
  cases v with
  | arr xs => exact goodItems_mem (goodRefs_arr h) hm
  | obj kvs =>
    simp only [pyIter, List.mem_map] at hm
    obtain ⟨kv, _, hx⟩ := hm
    subst hx
    rfl
  | str st =>
    simp only [pyIter, List.mem_map] at hm
    obtain ⟨c, _, hx⟩ := hm
    subst hx
    rfl
  | null => cases hm
  | bool b => cases hm
  | num n => cases hm

theorem pyIter_noRef {v : Json} (h : noRefAllOf v = true) {x : Json} (hm : x ∈ pyIter v) :
    noRefAllOf x = true := by
  cases v with
  | arr xs => exact noRefItems_mem (noRefAllOf_arr h) hm
  | obj kvs =>
    simp only [pyIter, List.mem_map] at hm
    obtain ⟨kv, _, hx⟩ := hm
    subst hx
    rfl
  | str st =>
    simp only [pyIter, List.mem_map] at hm
    obtain ⟨c, _, hx⟩ := hm
    subst hx
    rfl
  | null => cases hm
  | bool b => cases hm
  | num n => cases hm

theorem mapME_member {α β : Type} {f : α → Except RErr β} :
    ∀ {l : List α} {l2 : List β}, mapME f l = .ok l2 → ∀ y ∈ l2, ∃ x ∈ l, f x = .ok y := by
  intro l
  induction l with
  | nil =>
    intro l2 h y hy
    cases h
    cases hy
  | cons x xs ih =>
    intro l2 h y hy
    rw [mapME] at h
    cases hfx : f x with
    | error e => rw [hfx] at h; cases h
    | ok z =>
      rw [hfx] at h
      cases hm : mapME f xs with
      | error e => rw [hm] at h; cases h
      | ok zs =>
        rw [hm] at h
        cases h
        rcases List.mem_cons.mp hy with h1 | h1
        · subst h1
          exact ⟨x, List.mem_cons_self _ _, hfx⟩
        · obtain ⟨w, hw1, hw2⟩ := ih hm y h1
          exact ⟨w, List.mem_cons_of_mem _ hw1, hw2⟩

theorem noRefVals_intro {kvs : List (String × Json)}
    (h : ∀ kv ∈ kvs, noRefAllOf kv.2 = true) : noRefVals kvs = true := by
  induction kvs with
  | nil => rfl
  | cons hd tl ih =>
    simp only [noRefVals, Bool.and_eq_true]
    exact ⟨h hd (List.mem_cons_self _ _), ih (fun kv hm => h kv (List.mem_cons_of_mem _ hm))⟩

theorem noRefItems_intro {xs : List Json} (h : ∀ x ∈ xs, noRefAllOf x = true) :
    noRefItems xs = true := by
  induction xs with
  | nil => rfl
  | cons hd tl ih =>
    simp only [noRefItems, Bool.and_eq_true]
    exact ⟨h hd (List.mem_cons_self _ _), ih (fun x hm => h x (List.mem_cons_of_mem _ hm))⟩

theorem noRefAllOf_obj_intro {kvs : List (String × Json)}
    (h1 : lookupKV "$ref" kvs = none) (h2 : lookupKV "allOf" kvs = none)
    (h3 : ∀ kv ∈ kvs, noRefAllOf kv.2 = true) : noRefAllOf (.obj kvs) = true := by
  simp only [noRefAllOf, Bool.and_eq_true, Option.isNone_iff_eq_none]
  exact ⟨⟨h1, h2⟩, noRefVals_intro h3⟩

theorem noRefAllOf_arr_intro {xs : List Json} (h : ∀ x ∈ xs, noRefAllOf x = true) :
    noRefAllOf (.arr xs) = true := by
  simp only [noRefAllOf]
  exact noRefItems_intro h

theorem noRefAllOf_val {kvs : List (String × Json)} {k : String} {v : Json}
    (h : noRefAllOf (.obj kvs) = true) (hm : (k, v) ∈ kvs) : noRefAllOf v = true :=
  noRefVals_mem (noRefAllOf_obj h).2.2 hm

theorem mem_setKey {l : List (String × Json)} {k : String} {v : Json} {kv : String × Json}
    (h : kv ∈ setKey l k v) : kv ∈ l ∨ kv = (k, v) := by
  unfold setKey at h
  split at h
  · obtain ⟨e, he, hfe⟩ := List.mem_map.mp h
    by_cases hek : e.1 = k
    · rw [if_pos hek] at hfe
      right
      exact hfe.symm
    · rw [if_neg hek] at hfe
      left
      exact hfe ▸ he
  · rcases List.mem_append.mp h with h1 | h1
    · left; exact h1
    · right; simpa using h1

theorem mem_updateEntries : ∀ (upd base : List (String × Json)) {kv : String × Json},
    kv ∈ updateEntries base upd → kv ∈ base ∨ kv ∈ upd
  | [], _, _, h => Or.inl h
  | u :: tl, base, kv, h => by
    rw [show updateEntries base (u :: tl) = updateEntries (setKey base u.1 u.2) tl from rfl] at h
    rcases mem_updateEntries tl _ h with h1 | h1
    · rcases mem_setKey h1 with h2 | h2
      · exact Or.inl h2
      · right
        rw [h2]
        exact List.mem_cons.mpr (Or.inl (by simp))
    · exact Or.inr (List.mem_cons_of_mem _ h1)

theorem mem_foldProps : ∀ (rs : List Json) (base : List (String × Json)) {kv : String × Json},
    kv ∈ rs.foldl (fun p r => updateEntries p (propsEntriesOf r)) base →
    kv ∈ base ∨ ∃ r ∈ rs, kv ∈ propsEntriesOf r
  | [], _, _, h => Or.inl h
  | r :: tl, base, kv, h => by
    rw [List.foldl_cons] at h
    rcases mem_foldProps tl _ h with h1 | ⟨r2, hr2, hkv⟩
    · rcases mem_updateEntries _ _ h1 with h2 | h2
      · exact Or.inl h2
      · exact Or.inr ⟨r, List.mem_cons_self _ _, h2⟩
    · exact Or.inr ⟨r2, List.mem_cons_of_mem _ hr2, hkv⟩

theorem propsEntries_noRef {r : Json} (h : noRefAllOf r = true) :
    ∀ kv ∈ propsEntriesOf r, kv.1 ≠ "$ref" ∧ kv.1 ≠ "allOf" ∧ noRefAllOf kv.2 = true := by
  intro kv hm
  cases r with
  | obj rkvs =>
    unfold propsEntriesOf at hm
    dsimp only at hm
    cases hl : lookupKV "properties" rkvs with
    | none => rw [hl] at hm; cases hm
    | some pv =>
      rw [hl] at hm
      cases pv with
      | obj pkvs =>
        have hpv : noRefAllOf (.obj pkvs) = true := noRefAllOf_val h (lookupKV_some_mem hl)
        obtain ⟨hr1, hr2, hr3⟩ := noRefAllOf_obj hpv
        refine ⟨?_, ?_, noRefVals_mem hr3 hm⟩
        · intro hc
          exact (lookupKV_eq_none_iff.mp hr1) (List.mem_map.mpr ⟨kv, hm, hc⟩)
        · intro hc
          exact (lookupKV_eq_none_iff.mp hr2) (List.mem_map.mpr ⟨kv, hm, hc⟩)
      | null => cases hm
      | bool b => cases hm
      | num m => cases hm
      | str st => cases hm
      | arr xs => cases hm
  | null => cases hm
  | bool b => cases hm
  | num m => cases hm
  | str st => cases hm
  | arr xs => cases hm

theorem reqItems_noRef {r : Json} (h : noRefAllOf r = true) :
    ∀ x ∈ reqItemsOf r, noRefAllOf x = true := by
  intro x hm
  cases r with
  | obj rkvs =>
    unfold reqItemsOf at hm
    dsimp only at hm
    cases hl : lookupKV "required" rkvs with
    | none =>
      rw [hl] at hm
      cases hm
    | some rv =>
      rw [hl] at hm
      exact pyIter_noRef (noRefAllOf_val h (lookupKV_some_mem hl)) hm
  | null => cases hm
  | bool b => cases hm
  | num m => cases hm
  | str st => cases hm
  | arr xs => cases hm

theorem addlOf_noRef {r v : Json} (h : noRefAllOf r = true) (ha : addlOf r = some v) :
    noRefAllOf v = true := by
  cases r with
  | obj rkvs => exact noRefAllOf_val h (lookupKV_some_mem ha)
  | null => cases ha
  | bool b => cases ha
  | num m => cases ha
  | str st => cases ha
  | arr xs => cases ha

theorem noRefAllOf_mergeAllOf {rs : List Json} (h : ∀ r ∈ rs, noRefAllOf r = true) :
    noRefAllOf (mergeAllOf rs) = true := by
  have hprops : ∀ kv ∈ mergedProps rs, kv.1 ≠ "$ref" ∧ kv.1 ≠ "allOf" ∧ noRefAllOf kv.2 = true := by
    intro kv hm
    unfold mergedProps at hm
    rw [mergedProps_foldl] at hm
    rcases mem_foldProps rs [] hm with h1 | ⟨r, hr, hkv⟩
    · cases h1
    · exact propsEntries_noRef (h r hr) kv hkv
  have hpropsObj : noRefAllOf (.obj (mergedProps rs)) = true := by
    apply noRefAllOf_obj_intro
    · rw [lookupKV_eq_none_iff]
      intro hc
      obtain ⟨kv, hkv, he⟩ := List.mem_map.mp hc
      exact (hprops kv hkv).1 he
    · rw [lookupKV_eq_none_iff]
      intro hc
      obtain ⟨kv, hkv, he⟩ := List.mem_map.mp hc
      exact (hprops kv hkv).2.1 he
    · exact fun kv hm => (hprops kv hm).2.2
  have hreqArr : noRefAllOf (.arr (mergedReq rs).dedup) = true := by
    apply noRefAllOf_arr_intro
    intro x hm
    rw [List.mem_dedup] at hm
    unfold mergedReq at hm
    rw [mergedReq_foldl] at hm
    simp only [List.nil_append] at hm
    obtain ⟨l, hl, hx⟩ := List.mem_flatten.mp hm
    obtain ⟨r, hr, hlr⟩ := List.mem_map.mp hl
    subst hlr
    exact reqItems_noRef (h r hr) x hx
  cases haddl : mergedAddl rs with
  | none =>
    unfold mergeAllOf
    rw [haddl]
    simp only [List.append_nil]
    apply noRefAllOf_obj_intro
    · rfl
    · rfl
    · intro kv hm
      rcases List.mem_cons.mp hm with h1 | hm
      · rw [h1]; rfl
      rcases List.mem_cons.mp hm with h1 | hm
      · rw [h1]; exact hpropsObj
      rcases List.mem_cons.mp hm with h1 | hm
      · rw [h1]; exact hreqArr
      · cases hm
  | some v =>
    have hv : noRefAllOf v = true := by
      have hfold : mergedAddl rs = (rs.reverse.findSome? addlOf).or none := by
        unfold mergedAddl
        exact mergedAddl_foldl rs ([], [], none)
      rw [hfold] at haddl
      simp only [Option.or_none] at haddl
      obtain ⟨r, hr, ha⟩ := List.exists_of_findSome?_eq_some haddl
      exact addlOf_noRef (h r (List.mem_reverse.mp hr)) ha
    unfold mergeAllOf
    rw [haddl]
    apply noRefAllOf_obj_intro
    · rw [lookupKV_append]
      rfl
    · rw [lookupKV_append]
      rfl
    · intro kv hm
      rcases List.mem_append.mp hm with hm | hm
      · rcases List.mem_cons.mp hm with h1 | hm
        · rw [h1]; rfl
        rcases List.mem_cons.mp hm with h1 | hm
        · rw [h1]; exact hpropsObj
        rcases List.mem_cons.mp hm with h1 | hm
        · rw [h1]; exact hreqArr
        · cases hm
      · rcases List.mem_cons.mp hm with h1 | hm
        · rw [h1]; exact hv
        · cases hm

theorem mapME_resolve_obj (g : Json → Except RErr Json) :
    ∀ (kvs kvs2 : List (String × Json)),
    mapME (fun kv => match g kv.2 with
      | .error e => .error e
      | .ok v => .ok (kv.1, v)) kvs = .ok kvs2 →
    kvs2.map Prod.fst = kvs.map Prod.fst ∧
    ∀ kv2 ∈ kvs2, ∃ kv ∈ kvs, kv2.1 = kv.1 ∧ g kv.2 = .ok kv2.2
  | [], kvs2, h => by
    cases h
    exact ⟨rfl, fun kv2 h2 => absurd h2 (List.not_mem_nil _)⟩
  | kv :: tl, kvs2, h => by
    rw [mapME] at h
    cases hg : g kv.2 with
    | error e => rw [hg] at h; cases h
    | ok v =>
      rw [hg] at h
      cases hm : mapME (fun kv => match g kv.2 with
          | .error e => .error e
          | .ok v => .ok (kv.1, v)) tl with
      | error e => rw [hm] at h; cases h
      | ok tl2 =>
        rw [hm] at h
        cases h
        obtain ⟨hk, hv⟩ := mapME_resolve_obj g tl tl2 hm
        constructor
        · simp [hk]
        · intro kv2 h2
          rcases List.mem_cons.mp h2 with h1 | h1
          · subst h1
            exact ⟨kv, List.mem_cons_self _ _, rfl, hg⟩
          · obtain ⟨kv0, hkv0, he, hgg⟩ := hv kv2 h1
            exact ⟨kv0, List.mem_cons_of_mem _ hkv0, he, hgg⟩

theorem resolve_refs_good : ∀ (fuel : Nat) (s root : Json) (path : String)
    (fs : List (String × Json)) (res : Json),
    goodRefs s = true → goodRefs root = true → (∀ pc ∈ fs, goodRefs pc.2 = true) →
    resolve_refs fuel s root path fs = .ok res → noRefAllOf res = true := by
  intro fuel
  induction fuel with
  | zero =>
    intro s root path fs res hs hroot hfs hres
    cases hres
  | succ n ih =>
    intro s root path fs res hs hroot hfs hres
    rw [resolve_refs_succ] at hres
    by_cases hf : isFalsy s = true
    · rw [resolveBody_falsy _ _ _ _ _ hf] at hres
      cases hres
      exact noRefAllOf_falsy hf
    · cases s with
      | obj kvs =>
        obtain ⟨hscheme, hvals⟩ := goodRefs_obj hs
        cases href : lookupKV "$ref" kvs with
        | some w =>
          cases w with
          | str r =>
            cases hint : strStartsWith r "#/" with
            | true =>
              rw [resolveBody_ref_internal _ kvs r root path fs href hint] at hres
              cases hw : walkInternal root (strSplitOnC '/' (strDrop r 2)) with
              | error e => rw [hw] at hres; cases hres
              | ok target =>
                rw [hw] at hres
                exact ih target root path fs res
                  (walkInternal_good _ root hroot target hw) hroot hfs hres
            | false =>
              have hext : strStartsWith r "./" = true ∧
                  (match strSplitOnC '#' r with
                   | _ :: frag :: _ => decide (frag ≠ "")
                   | _ => false) = true := by
                unfold refSchemeOk at hscheme
                rw [href] at hscheme
                simp only [hint, Bool.false_or, Bool.and_eq_true] at hscheme
                exact hscheme
              rw [resolveBody_ref_external _ kvs r root path fs href hint hext.1] at hres
              cases hsp : strSplitOnC '#' r with
              | nil =>
                rw [hsp] at hres
                cases hres
              | cons f0 rest =>
                cases rest with
                | nil =>
                  exact absurd (by rw [hsp] at hext; exact hext.2) (by simp)
                | cons frag rest2 =>
                  have hfrag : frag ≠ "" := by
                    have := hext.2
                    rw [hsp] at this
                    simpa using this
                  rw [hsp] at hres
                  dsimp only at hres
                  cases hfl : lookupKV (joinPath (parentDir path) f0) fs with
                  | none => rw [hfl] at hres; cases hres
                  | some content =>
                    rw [hfl] at hres
                    dsimp only at hres
                    rw [if_neg hfrag] at hres
                    have hcontent : goodRefs content = true :=
                      hfs _ (lookupKV_some_mem hfl)
                    cases hwe : walkExternal content (strSplitOnC '/' (strDrop frag 1)) with
                    | error e => rw [hwe] at hres; cases hres
                    | ok target =>
                      rw [hwe] at hres
                      exact ih target content (joinPath (parentDir path) f0) fs res
                        (walkExternal_good _ content hcontent target hwe) hcontent hfs hres
          | null =>
            unfold refSchemeOk at hscheme
            rw [href] at hscheme
            cases hscheme
          | bool b =>
            unfold refSchemeOk at hscheme
            rw [href] at hscheme
            cases hscheme
          | num m =>
            unfold refSchemeOk at hscheme
            rw [href] at hscheme
            cases hscheme
          | arr xs =>
            unfold refSchemeOk at hscheme
            rw [href] at hscheme
            cases hscheme
          | obj okvs =>
            unfold refSchemeOk at hscheme
            rw [href] at hscheme
            cases hscheme
        | none =>
          cases hall : lookupKV "allOf" kvs with
          | some av =>
            have hne : kvs ≠ [] := lookupKV_ne_nil hall
            rw [resolveBody_allOf _ kvs av root path fs href hall hne] at hres
            cases hm : mapME (fun s => resolve_refs n s root path fs) (pyIter av) with
            | error e => rw [hm] at hres; cases hres
            | ok rs =>
              rw [hm] at hres
              cases hres
              apply noRefAllOf_mergeAllOf
              intro r hr
              obtain ⟨x, hx, hgx⟩ := mapME_member hm r hr
              have hav : goodRefs av = true := goodVals_mem hvals (lookupKV_some_mem hall)
              exact ih x root path fs r (pyIter_good hav hx) hroot hfs hgx
          | none =>
            rw [resolveBody_plain_obj _ kvs root path fs href hall] at hres
            cases hm : mapME (fun kv =>
                match resolve_refs n kv.2 root path fs with
                | .error e => .error e
                | .ok v => .ok (kv.1, v)) kvs with
            | error e => rw [hm] at hres; cases hres
            | ok kvs2 =>
              rw [hm] at hres
              cases hres
              obtain ⟨hkeys, hvv⟩ :=
                mapME_resolve_obj (fun j => resolve_refs n j root path fs) kvs kvs2 hm
              apply noRefAllOf_obj_intro
              · rw [lookupKV_eq_none_iff, hkeys]
                exact lookupKV_eq_none_iff.mp href
              · rw [lookupKV_eq_none_iff, hkeys]
                exact lookupKV_eq_none_iff.mp hall
              · intro kv2 hm2
                obtain ⟨kv, hkv, _, hg⟩ := hvv kv2 hm2
                exact ih kv.2 root path fs kv2.2 (goodVals_mem hvals hkv) hroot hfs hg
      | arr xs =>
        rw [resolveBody_arr] at hres
        cases hm : mapME (fun x => resolve_refs n x root path fs) xs with
        | error e => rw [hm] at hres; cases hres
        | ok ys =>
          rw [hm] at hres
          cases hres
          apply noRefAllOf_arr_intro
          intro y hy
          obtain ⟨x, hx, hgx⟩ := mapME_member hm y hy
          exact ih x root path fs y (goodItems_mem (goodRefs_arr hs) hx) hroot hfs hgx
      | null => simp [isFalsy] at hf
      | bool b =>
        rw [resolveBody_scalar _ _ root path fs
          (fun xs h => Json.noConfusion h) (fun kvs h => Json.noConfusion h)] at hres
        cases hres
        rfl
      | num m =>
        rw [resolveBody_scalar _ _ root path fs
          (fun xs h => Json.noConfusion h) (fun kvs h => Json.noConfusion h)] at hres
        cases hres
        rfl
      | str st =>
        rw [resolveBody_scalar _ _ root path fs
          (fun xs h => Json.noConfusion h) (fun kvs h => Json.noConfusion h)] at hres
        cases hres
        rfl

theorem eventsOf_good {content : Json} (h : goodRefs content = true) :
    ∀ ev ∈ eventsOf content, goodRefs ev.2 = true := by
  intro ev hm
  cases content with
  | obj kvs =>
    unfold eventsOf at hm
    dsimp only at hm
    cases hl : lookupKV "events" kvs with
    | none => rw [hl] at hm; cases hm
    | some ev2 =>
      rw [hl] at hm
      cases ev2 with
      | obj evs =>
        have hevs : goodRefs (.obj evs) = true :=
          goodVals_mem (goodRefs_obj h).2 (lookupKV_some_mem hl)
        exact goodVals_mem (goodRefs_obj hevs).2 hm
      | null => cases hm
      | bool b => cases hm
      | num m => cases hm
      | str st => cases hm
      | arr xs => cases hm
  | null => cases hm
  | bool b => cases hm
  | num m => cases hm
  | str st => cases hm
  | arr xs => cases hm

theorem mkResolvedEvent_schema {name : String} {resolved : Json} {ev : ResolvedEvent}
    (h : mkResolvedEvent name resolved = .ok ev) : ev.schema = resolved := by
  cases resolved with
  | obj kvs => cases h; rfl
  | null => cases h
  | bool b => cases h
  | num m => cases h
  | str st => cases h
  | arr xs => cases h

/-- C1 (amended): for every event produced by the loader, the schema
stored in its ResolvedEvent contains no reachable `$ref` key and no
reachable `allOf` key, PROVIDED every reference reachable in the loaded
documents and in every referenced file uses a recognized scheme and every
external file reference carries a fragment pointer (`goodRefs`). A `$ref`
with an unrecognized scheme survives resolution verbatim (see the
counterexample), and a fragmentless external reference returns the raw
referenced file, so the unconditional claim fails. -/
theorem load_schemas_fully_resolved (fuel : Nat) (files fs : List (String × Json))
    (evs : List ResolvedEvent)
    (hfiles : ∀ pc ∈ files, goodRefs pc.2 = true)
    (hfs : ∀ pc ∈ fs, goodRefs pc.2 = true)
    (h : load_schemas fuel files fs = .ok evs) :
    ∀ ev ∈ evs, noRefAllOf ev.schema = true := by
  intro ev hev
  simp only [load_schemas] at h
  split at h
  · cases h
  · rename_i nested hm
    cases h
    have hev2 : ev ∈ nested.flatten := (List.perm_insertionSort _ _).mem_iff.mp hev
    obtain ⟨li, hli, hevli⟩ := List.mem_flatten.mp hev2
    obtain ⟨pc, hpc, hpcok⟩ := mapME_member hm li hli
    have hpc2 : pc ∈ files := (List.perm_insertionSort _ files).mem_iff.mp hpc
    obtain ⟨evp, hevp, hevpok⟩ := mapME_member hpcok ev hevli
    cases hr : resolve_refs fuel evp.2 pc.2 pc.1 fs with
    | error e => rw [hr] at hevpok; cases hevpok
    | ok resolved =>
      rw [hr] at hevpok
      rw [mkResolvedEvent_schema hevpok]
      exact resolve_refs_good fuel evp.2 pc.2 pc.1 fs resolved
        (eventsOf_good (hfiles pc hpc2) evp hevp) (hfiles pc hpc2) hfs hr

/-- Schema document for the C1 witness: one event referencing a shared
definition through an internal `$ref`. -/
def c1File : Json :=
  .obj [("definitions", .obj [("Shared",
          .obj [("type", .str "object"),
                ("properties", .obj [("x", .obj [("type", .str "string")])])])]),
        ("events", .obj [("evt", .obj [("$ref", .str "#/definitions/Shared")])])]

theorem load_schemas_fully_resolved_witness :
    load_schemas 10 [("schemas/a.json", c1File)] [] = .ok [{
      event_name := "evt", type_name := "EvtProperties",
      schema := .obj [("type", .str "object"),
                ("properties", .obj [("x", .obj [("type", .str "string")])])],
      properties := .obj [("x", .obj [("type", .str "string")])],
      required := .arr [] }] ∧
    noRefAllOf (.obj [("type", .str "object"),
      ("properties", .obj [("x", .obj [("type", .str "string")])])]) = true := by
  refine ⟨rfl, ?_⟩
  have h := load_schemas_fully_resolved 10 [("schemas/a.json", c1File)] []
    [{ event_name := "evt", type_name := "EvtProperties",
       schema := .obj [("type", .str "object"),
                ("properties", .obj [("x", .obj [("type", .str "string")])])],
       properties := .obj [("x", .obj [("type", .str "string")])],
       required := .arr [] }]
    (by decide) (fun pc hp => absurd hp (List.not_mem_nil _)) rfl
  exact h _ (List.mem_singleton.mpr rfl)

/-- C1 counterexample: an event whose schema is a `$ref` with an
unrecognized scheme (`urn:external`) loads successfully, and the schema
stored in its ResolvedEvent still contains the `$ref` key — resolution
did not eliminate it. -/
theorem load_schemas_ref_survives :
    load_schemas 3 [("schemas/a.json",
      .obj [("events", .obj [("evt", .obj [("$ref", .str "urn:external")])])])] []
      = .ok [{ event_name := "evt", type_name := "EvtProperties",
               schema := .obj [("$ref", .str "urn:external")],
               properties := .obj [], required := .arr [] }] ∧
    lookupKV "$ref" [("$ref", Json.str "urn:external")] = some (.str "urn:external") ∧
    noRefAllOf (.obj [("$ref", .str "urn:external")]) = false := by
  refine ⟨rfl, rfl, by decide⟩

theorem resolve_refs_cycle_diverges_witness :
    resolve_refs 5 cycSchema cycRoot "schemas/a.json" [] = .error .fuel :=
  resolve_refs_cycle_diverges 5
